import Mathlib

/-!
Verification development for the mineru-parse repository.

The definitions below are a shallow embedding, in Lean, of the TypeScript
source under `src/`:

* `src/src/modules/parse.ts` — the per-document parse pipeline
  (`parseItem`), the archive extractor (`extractMarkdown`,
  `normalizeZipEntryPath`, `selectMarkdown`), the result cache
  (`findCachedMarkdown`, `readCacheMetadata`, `isSameAttachment`,
  `inferCachedMarkdown`, `findMarkdownFile`) and the remote poll loop
  (`pollBatchResult`).
* `src/src/modules/parse.ts` (BatchQueue section) and
  `src/src/modules/batchParse/window.ts` — the batch orchestrator
  (`BatchQueue.pump`, `BatchQueue.retry`, `BatchQueue.stopAll`,
  `normalizeConcurrency`).

JavaScript strings are modelled as Lean `String`, with the character-level
operations (`replace`, `toLowerCase`, `split`, `endsWith`, `trim`)
implemented over `List Char` so that every definition evaluates inside the
kernel.  Filesystem and network effects are modelled by explicit state /
environment records; asynchronous code is modelled by explicit event
traces.  `undefined`-able fields become `Option`; JavaScript falsy tests
on strings/numbers are modelled as emptiness / zero tests at each use
site, mirroring the source expression.
-/

/-- `s.replace(/\\/g, "/")` — global single-character replacement. -/
def replaceBackslashes (s : List Char) : List Char :=
  s.map (fun c => if c = '\\' then '/' else c)

/-- `s.toLowerCase()` restricted to code-point lowering (`Char.toLower`). -/
def lowerStr (s : String) : String :=
  String.mk (s.toList.map Char.toLower)

/-- `s.endsWith(suffix)` on JavaScript strings. -/
def endsWithStr (s suf : String) : Bool :=
  suf.toList.isSuffixOf s.toList

/-- `s.startsWith(p)` on JavaScript strings. -/
def startsWithStr (s p : String) : Bool :=
  p.toList.isPrefixOf s.toList

/-- Contiguous-sublist test on character lists. -/
def isInfixList (sub : List Char) : List Char → Bool
  | [] => sub.isPrefixOf []
  | c :: rest => sub.isPrefixOf (c :: rest) || isInfixList sub rest

/-- Substring containment (used for `String.prototype.includes`). -/
def containsStr (s sub : String) : Bool :=
  isInfixList sub.toList s.toList

/-- `s.trim()` (strip leading and trailing whitespace). -/
def trimStr (s : String) : String :=
  String.mk (((s.toList.dropWhile Char.isWhitespace).reverse.dropWhile
    Char.isWhitespace).reverse)

/-- `/^[a-zA-Z]:/.test(s)` — a drive-qualified path. -/
def driveQualified : List Char → Bool
  | c1 :: c2 :: _ => c1.isAlpha && c2 = ':'
  | _ => false

/--
`normalizeZipEntryPath` from `src/src/modules/parse.ts` (lines 1643-1662):
replace every backslash by a slash, strip one leading `./`-run
(`.replace(/^\.\/+/, "")`), then return `[]` (rejection) for the empty
path, an absolute path, a drive-qualified path, a path with no nonempty
segments, or a path containing a `.` or `..` segment; otherwise return the
list of nonempty path segments.  (After the global backslash replacement
the source's additional `startsWith("\\")` test can never fire, so it has
no separate branch here.)
-/
def normalizeZipEntryPath (entryPath : String) : List String :=
  let replaced := replaceBackslashes entryPath.toList
  let stripped :=
    if replaced.take 2 = ['.', '/'] then (replaced.drop 1).dropWhile (fun c => c = '/')
    else replaced
  if stripped.isEmpty then []
  else if stripped.head? = some '/' then []
  else if driveQualified stripped then []
  else
    let segments := (stripped.splitOn '/').filter (fun s => !s.isEmpty)
    if segments.isEmpty then []
    else if segments.any (fun seg => seg = ['.'] || seg = ['.', '.']) then []
    else segments.map String.mk

/--
The regular-expression test `/(^|\/)markdown\//.test(normalized)` applied
to the backslash-normalized, lowercased path (from `selectMarkdown`).
-/
def hasMarkdownSegment (p : String) : Bool :=
  let n := (replaceBackslashes p.toList).map Char.toLower
  ("markdown/".toList.isPrefixOf n) || (isInfixList "/markdown/".toList n)

/--
Case-insensitive code-point comparison on character lists; the embedding
of `a.localeCompare(b, "en", { sensitivity: "base" }) <= 0` used as the
locale-neutral case-insensitive sort order.
-/
def charListLe : List Char → List Char → Bool
  | [], _ => true
  | _ :: _, [] => false
  | a :: as, b :: bs =>
    if a.toLower.toNat < b.toLower.toNat then true
    else if b.toLower.toNat < a.toLower.toNat then false
    else charListLe as bs

/-- The comparator of `selectMarkdown`, lifted to `String`. -/
def ciLe (a b : String) : Bool :=
  charListLe a.toList b.toList

/--
`selectMarkdown` from `src/src/modules/parse.ts` (lines 1627-1641): on an
empty candidate list return `""`; otherwise return the first candidate
under a `markdown/` path segment, and when none exists the head of the
stable sort of the candidates under the locale-neutral case-insensitive
comparator (`Array.prototype.sort` with `localeCompare`, modelled by
`List.mergeSort`, which is stable).
-/
def selectMarkdown (paths : List String) : String :=
  if paths.isEmpty then ""
  else
    match paths.find? hasMarkdownSegment with
    | some p => p
    | none => (paths.mergeSort ciLe).headD ""

/-- `PathUtils.join(dir, ...segments)`. -/
def joinPath (dir : String) (segments : List String) : String :=
  dir ++ "/" ++ String.intercalate "/" segments

/-- The "malicious archive" abort message of `extractMarkdown`. -/
def maliciousMsg : String := "压缩包包含不安全的路径，已中止解压"

/-- The "no Markdown result found" message of `extractMarkdown`. -/
def noMarkdownMsg : String := "未找到 Markdown 结果文件"

/--
A zip entry that makes `extractMarkdown` abort: it fails
`normalizeZipEntryPath` and is neither the empty path nor an explicit
directory marker (trailing `/`) — source condition
`if (entryPath && !entryPath.endsWith("/")) throw ...`.
-/
def isBadZipEntry (p : String) : Bool :=
  (normalizeZipEntryPath p).isEmpty && !(p.toList.isEmpty) && !(endsWithStr p "/")

/--
The entry loop of `extractMarkdown` (lines 1598-1619).  An archive is the
list of its entry paths in order (`Object.entries(unzipSync(...))`
preserves zip entry order; entry data never influences control flow).
The accumulators are the file paths written so far (`IOUtils.write`
calls, in order) and the relative `.md` candidate paths.  The result is
the final `mdCandidates` (or the abort error) paired with the written
files — on abort, the files already written remain on disk.
-/
def extractLoop (dir : String) :
    List String → List String → List String → Except String (List String) × List String
  | [], written, mdc => (Except.ok mdc, written)
  | p :: rest, written, mdc =>
    let segs := normalizeZipEntryPath p
    if segs.isEmpty then
      if !(p.toList.isEmpty) && !(endsWithStr p "/") then (Except.error maliciousMsg, written)
      else extractLoop dir rest written mdc
    else if endsWithStr p "/" then
      -- directory marker: `ensureDirOnce` only, nothing written as a file
      extractLoop dir rest written mdc
    else
      let outPath := joinPath dir segs
      let mdc' := if endsWithStr (lowerStr p) ".md" then mdc ++ [String.intercalate "/" segs] else mdc
      extractLoop dir rest (written ++ [outPath]) mdc'

/--
`extractMarkdown` from `src/src/modules/parse.ts` (lines 1587-1625),
with the written-file trace made explicit: run the entry loop, then
select the Markdown candidate; failure to find one is the
`noMarkdownMsg` error.  The second component is the list of file paths
that have been written to the output directory when the call returns or
throws.
-/
def extractMarkdown (entries : List String) (outputDir : String) :
    Except String String × List String :=
  match extractLoop outputDir entries [] [] with
  | (Except.error e, written) => (Except.error e, written)
  | (Except.ok mdc, written) =>
    let selected := selectMarkdown mdc
    if selected = "" then (Except.error noMarkdownMsg, written)
    else (Except.ok (joinPath outputDir (selected.splitOn "/")), written)

/-- Optional size/mtime fields of a fingerprint (`CacheMetadata` side and
lookup side both carry `attachmentSize?`, `attachmentMtime?`). -/
structure AttachFields where
  attachmentSize : Option Nat
  attachmentMtime : Option Nat
deriving Repr, DecidableEq

/--
`isSameAttachment` from `src/src/modules/parse.ts` (lines 1765-1778):
each of size and mtime matches when the field is not a number on either
side (`typeof x !== "number"`, i.e. absent) or equal on both.
-/
def isSameAttachment (meta info : AttachFields) : Bool :=
  let sizeMatch :=
    meta.attachmentSize.isNone || info.attachmentSize.isNone ||
      (meta.attachmentSize == info.attachmentSize)
  let mtimeMatch :=
    meta.attachmentMtime.isNone || info.attachmentMtime.isNone ||
      (meta.attachmentMtime == info.attachmentMtime)
  sizeMatch && mtimeMatch

/-! ### Order lemmas for the case-insensitive comparator -/

theorem charListLe_refl (l : List Char) : charListLe l l = true := by
  induction l with
  | nil => rfl
  | cons a as ih => simp [charListLe, ih]

theorem charListLe_total (a b : List Char) :
    (charListLe a b || charListLe b a) = true := by
  induction a generalizing b with
  | nil => simp [charListLe]
  | cons x xs ih =>
    cases b with
    | nil => simp [charListLe]
    | cons y ys =>
      by_cases h1 : x.toLower.toNat < y.toLower.toNat
      · simp [charListLe, h1]
      · by_cases h2 : y.toLower.toNat < x.toLower.toNat
        · simp [charListLe, h1, h2]
        · simp only [charListLe, if_neg h1, if_neg h2]
          exact ih ys

theorem charListLe_trans (a b c : List Char)
    (hab : charListLe a b = true) (hbc : charListLe b c = true) :
    charListLe a c = true := by
  induction a generalizing b c with
  | nil => rfl
  | cons x xs ih =>
    cases b with
    | nil => simp [charListLe] at hab
    | cons y ys =>
      cases c with
      | nil => simp [charListLe] at hbc
      | cons z zs =>
        simp only [charListLe] at hab hbc ⊢
        by_cases hxy : x.toLower.toNat < y.toLower.toNat
        · by_cases hyz : y.toLower.toNat < z.toLower.toNat
          · have : x.toLower.toNat < z.toLower.toNat := hxy.trans hyz
            simp [this]
          · by_cases hzy : z.toLower.toNat < y.toLower.toNat
            · simp [hyz, hzy] at hbc
            · have hyz' : y.toLower.toNat = z.toLower.toNat := by omega
              have : x.toLower.toNat < z.toLower.toNat := by omega
              simp [this]
        · by_cases hyx : y.toLower.toNat < x.toLower.toNat
          · simp [hxy, hyx] at hab
          · have hxy' : x.toLower.toNat = y.toLower.toNat := by omega
            by_cases hyz : y.toLower.toNat < z.toLower.toNat
            · have : x.toLower.toNat < z.toLower.toNat := by omega
              simp [this]
            · by_cases hzy : z.toLower.toNat < y.toLower.toNat
              · simp [hyz, hzy] at hbc
              · have h1 : ¬ x.toLower.toNat < z.toLower.toNat := by omega
                have h2 : ¬ z.toLower.toNat < x.toLower.toNat := by omega
                simp only [if_neg h1, if_neg h2]
                simp only [if_neg hxy, if_neg hyx] at hab
                simp only [if_neg hyz, if_neg hzy] at hbc
                exact ih ys zs hab hbc

theorem ciLe_refl (a : String) : ciLe a a = true := charListLe_refl _

theorem ciLe_total (a b : String) : (ciLe a b || ciLe b a) = true :=
  charListLe_total _ _

theorem ciLe_trans (a b c : String) (h1 : ciLe a b = true) (h2 : ciLe b c = true) :
    ciLe a c = true := charListLe_trans _ _ _ h1 h2

/--
**C3.** Markdown-file selection is deterministic: for every non-empty
candidate list, `selectMarkdown` returns one of the candidates; it
returns a path under a `markdown` path segment whenever one exists; when
none exists it returns a candidate that is least under the locale-neutral
case-insensitive order `ciLe`; and on the concrete list
`["b/out.md", "markdown/out.md", "a/out.md"]` it returns
`"markdown/out.md"`.
-/
theorem selectMarkdown_policy (paths : List String) (hne : paths ≠ []) :
    (selectMarkdown paths ∈ paths) ∧
    ((∃ p ∈ paths, hasMarkdownSegment p = true) →
      hasMarkdownSegment (selectMarkdown paths) = true) ∧
    ((∀ p ∈ paths, hasMarkdownSegment p = false) →
      ∀ q ∈ paths, ciLe (selectMarkdown paths) q = true) ∧
    selectMarkdown ["b/out.md", "markdown/out.md", "a/out.md"] = "markdown/out.md" := by
  have hisEmpty : paths.isEmpty = false := by
    cases paths with
    | nil => exact absurd rfl hne
    | cons a l => rfl
  cases hfind : paths.find? hasMarkdownSegment with
  | some p =>
    have hsel : selectMarkdown paths = p := by
      simp [selectMarkdown, hisEmpty, hfind]
    refine ⟨?_, ?_, ?_, rfl⟩
    · rw [hsel]; exact List.mem_of_find?_eq_some hfind
    · intro _; rw [hsel]; exact List.find?_some hfind
    · intro hall
      have hp := List.find?_some hfind
      have hmem := List.mem_of_find?_eq_some hfind
      rw [hall p hmem] at hp
      exact absurd hp (by simp)
  | none =>
    have hall := List.find?_eq_none.mp hfind
    have hperm : (paths.mergeSort ciLe).Perm paths := List.mergeSort_perm paths ciLe
    have hlne : paths.mergeSort ciLe ≠ [] := by
      intro h
      have := hperm.length_eq
      rw [h] at this
      cases paths with
      | nil => exact hne rfl
      | cons a l => simp at this
    obtain ⟨h, t, hht⟩ : ∃ h t, paths.mergeSort ciLe = h :: t := by
      cases hl : paths.mergeSort ciLe with
      | nil => exact absurd hl hlne
      | cons a l => exact ⟨a, l, rfl⟩
    have hsel : selectMarkdown paths = h := by
      simp [selectMarkdown, hisEmpty, hfind, hht]
    have hmemh : h ∈ paths := by
      have : h ∈ paths.mergeSort ciLe := by rw [hht]; exact List.mem_cons_self h t
      exact hperm.mem_iff.mp this
    refine ⟨hsel ▸ hmemh, ?_, ?_, rfl⟩
    · rintro ⟨p, hp, hpred⟩
      have := hall p hp
      simp [this] at hpred
    · intro _ q hq
      have hsorted := List.sorted_mergeSort
        (fun a b c hab hbc => ciLe_trans a b c hab hbc)
        (fun a b => ciLe_total a b) paths
      rw [hht] at hsorted
      have hqmem : q ∈ h :: t := by
        rw [← hht]
        exact hperm.mem_iff.mpr hq
      rw [hsel]
      rcases List.mem_cons.mp hqmem with hqh | hqt
      · rw [hqh]; exact ciLe_refl h
      · exact (List.pairwise_cons.mp hsorted).1 q hqt

/--
Witness for `selectMarkdown_policy` at the concrete candidate list of the
claim.
-/
theorem selectMarkdown_policy_witness :
    (["b/out.md", "markdown/out.md", "a/out.md"] : List String) ≠ [] ∧
    selectMarkdown ["b/out.md", "markdown/out.md", "a/out.md"] = "markdown/out.md" :=
  ⟨by decide, (selectMarkdown_policy ["b/out.md", "markdown/out.md", "a/out.md"]
    (by decide)).2.2.2⟩

/-! ### C1: zip-slip abort and the written-file trace -/

theorem extractLoop_cons_eq (dir p : String) (rest w m : List String) :
    extractLoop dir (p :: rest) w m =
      (if (normalizeZipEntryPath p).isEmpty then
        (if !(p.toList.isEmpty) && !(endsWithStr p "/") then (Except.error maliciousMsg, w)
         else extractLoop dir rest w m)
      else if endsWithStr p "/" then extractLoop dir rest w m
      else extractLoop dir rest (w ++ [joinPath dir (normalizeZipEntryPath p)])
        (if endsWithStr (lowerStr p) ".md"
          then m ++ [String.intercalate "/" (normalizeZipEntryPath p)] else m)) := rfl

theorem extractLoop_bad_append (dir p : String) (post : List String)
    (hp : isBadZipEntry p = true) :
    ∀ (pre : List String) (w m : List String), (∀ q ∈ pre, isBadZipEntry q = false) →
    extractLoop dir (pre ++ p :: post) w m =
      (Except.error maliciousMsg, (extractLoop dir pre w m).2) := by
  intro pre
  induction pre with
  | nil =>
    intro w m _
    obtain ⟨⟨hA, hB⟩, hC⟩ :
        ((normalizeZipEntryPath p).isEmpty = true ∧ (!(p.toList.isEmpty)) = true) ∧
          (!(endsWithStr p "/")) = true := by
      rw [isBadZipEntry] at hp
      exact ⟨Bool.and_eq_true_iff.mp (Bool.and_eq_true_iff.mp hp).1, (Bool.and_eq_true_iff.mp hp).2⟩
    have hcond : (!(p.toList.isEmpty) && !(endsWithStr p "/")) = true := by
      rw [hB, hC]; rfl
    rw [List.nil_append, extractLoop_cons_eq, if_pos hA, if_pos hcond]
    rfl
  | cons q pre ih =>
    intro w m hpre
    have hq : isBadZipEntry q = false := hpre q (List.mem_cons_self q pre)
    have hpre' : ∀ r ∈ pre, isBadZipEntry r = false :=
      fun r hr => hpre r (List.mem_cons_of_mem q hr)
    rw [List.cons_append]
    simp only [extractLoop_cons_eq]
    by_cases h1 : (normalizeZipEntryPath q).isEmpty = true
    · have h2 : ¬ ((!(q.toList.isEmpty) && !(endsWithStr q "/")) = true) := by
        intro hc
        obtain ⟨hx, hy⟩ := Bool.and_eq_true_iff.mp hc
        have : isBadZipEntry q = true := by
          rw [isBadZipEntry, h1, hx, hy]; rfl
        rw [this] at hq
        exact Bool.noConfusion hq
      simp only [if_pos h1, if_neg h2]
      exact ih w m hpre'
    · simp only [if_neg h1]
      by_cases h3 : endsWithStr q "/" = true
      · simp only [if_pos h3]
        exact ih w m hpre'
      · simp only [if_neg h3]
        exact ih _ _ hpre'

theorem extractMarkdown_written_eq_loop (entries : List String) (dir : String) :
    (extractMarkdown entries dir).2 = (extractLoop dir entries [] []).2 := by
  rcases h : extractLoop dir entries [] [] with ⟨res, written⟩
  cases res with
  | error e => simp [extractMarkdown, h]
  | ok mdc =>
    by_cases hsel : selectMarkdown mdc = ""
    · simp [extractMarkdown, h, hsel]
    · simp [extractMarkdown, h, hsel]

/--
**C1 (amended).** For every archive whose entry list contains a file
entry that fails path normalization (absolute, drive-qualified, or
containing a `.`/`..` segment after stripping one leading `./`-run — the
`isBadZipEntry` predicate), `extractMarkdown` aborts with the
"malicious archive" error `压缩包包含不安全的路径，已中止解压`; the abort is
not retroactive: the file entries processed before the first malicious
entry are left written to the output directory (the written-file trace
equals the trace of extracting the preceding prefix alone), and no entry
at or after the malicious one is written.
-/
theorem extractMarkdown_malicious_abort (dir p : String) (pre post : List String)
    (hpre : ∀ q ∈ pre, isBadZipEntry q = false) (hp : isBadZipEntry p = true) :
    (extractMarkdown (pre ++ p :: post) dir).1 = Except.error maliciousMsg ∧
    (extractMarkdown (pre ++ p :: post) dir).2 = (extractMarkdown pre dir).2 := by
  have hloop := extractLoop_bad_append dir p post hp pre [] [] hpre
  constructor
  · simp [extractMarkdown, hloop]
  · rw [extractMarkdown_written_eq_loop (pre ++ p :: post) dir,
      extractMarkdown_written_eq_loop pre dir, hloop]

/--
Witness for `extractMarkdown_malicious_abort`: the archive
`["a.txt", "../evil.txt"]` aborts with the malicious-archive error and
keeps the files written for the safe prefix `["a.txt"]`.
-/
theorem extractMarkdown_malicious_abort_witness :
    (extractMarkdown ["a.txt", "../evil.txt"] "/out").1 = Except.error maliciousMsg ∧
    (extractMarkdown ["a.txt", "../evil.txt"] "/out").2 =
      (extractMarkdown ["a.txt"] "/out").2 :=
  extractMarkdown_malicious_abort "/out" "../evil.txt" ["a.txt"] []
    (by decide) (by decide)

/--
**C1 (counterexample to the claim as stated).** The claim asserts that the
malicious-archive abort leaves *no* file entry written to the output
directory.  On the concrete archive `["a.txt", "../evil.txt"]` the code
aborts with the malicious-archive error, yet the file entry `a.txt` has
already been written (the written-file trace is `["/out/a.txt"] ≠ []`).
-/
theorem extractMarkdown_partial_extraction_cex :
    extractMarkdown ["a.txt", "../evil.txt"] "/out" =
      (Except.error maliciousMsg, ["/out/a.txt"]) ∧
    (["/out/a.txt"] : List String) ≠ [] :=
  ⟨rfl, by decide⟩

/--
**C4.** Cache-fingerprint equivalence is tolerant of absent optional
fields: `isSameAttachment` returns `true` whenever, for each of the size
and mtime fields, the field is missing on either side or equal on both.
-/
theorem isSameAttachment_optional_tolerant (m i : AttachFields)
    (hsize : m.attachmentSize = none ∨ i.attachmentSize = none ∨
      m.attachmentSize = i.attachmentSize)
    (hmtime : m.attachmentMtime = none ∨ i.attachmentMtime = none ∨
      m.attachmentMtime = i.attachmentMtime) :
    isSameAttachment m i = true := by
  have hs : (m.attachmentSize.isNone || i.attachmentSize.isNone ||
      (m.attachmentSize == i.attachmentSize)) = true := by
    rcases hsize with h | h | h <;> simp [h]
  have hm : (m.attachmentMtime.isNone || i.attachmentMtime.isNone ||
      (m.attachmentMtime == i.attachmentMtime)) = true := by
    rcases hmtime with h | h | h <;> simp [h]
  simp only [isSameAttachment]
  rw [hs, hm]
  rfl

/--
Witness for `isSameAttachment_optional_tolerant`: a fingerprint whose
size is only present on the metadata side and whose mtime is only present
on the lookup side is accepted.
-/
theorem isSameAttachment_optional_tolerant_witness :
    isSameAttachment ⟨some 1024, none⟩ ⟨none, some 1700000000⟩ = true :=
  isSameAttachment_optional_tolerant ⟨some 1024, none⟩ ⟨none, some 1700000000⟩
    (Or.inr (Or.inl rfl)) (Or.inl rfl)

/-! ### The result-cache model (`findCachedMarkdown` and helpers) -/

/-- The fields of an `IOUtils.stat` result that the cache code reads. -/
structure Stat where
  isDir : Bool
  size : Option Nat
  lastModified : Nat
deriving Repr, DecidableEq

/-- The `CacheMetadata` record persisted as `cache-info.json`. -/
structure CacheMetadata where
  itemKey : String
  attachmentKey : String
  attachmentSize : Option Nat
  attachmentMtime : Option Nat
  modelVersion : Option String
  mdPath : String
  createdAt : Nat
  dataId : Option String
deriving Repr, DecidableEq

/--
A filesystem node, carrying its full path (as returned by
`IOUtils.getChildren`), its `IOUtils.stat` result (`none` models a stat
error, caught and skipped by the walkers) and its children
(`IOUtils.getChildren`, `[]` for plain files and for read errors).
-/
inductive FsNode where
  | mk (path : String) (stat : Option Stat) (children : List FsNode)

def FsNode.path : FsNode → String
  | FsNode.mk p _ _ => p

def FsNode.stat : FsNode → Option Stat
  | FsNode.mk _ st _ => st

def FsNode.children : FsNode → List FsNode
  | FsNode.mk _ _ cs => cs

mutual
def nodeWeight : FsNode → Nat
  | FsNode.mk _ _ cs => 1 + nodesWeight cs

def nodesWeight : List FsNode → Nat
  | [] => 0
  | n :: rest => nodeWeight n + nodesWeight rest
end

theorem nodesWeight_append (a b : List FsNode) :
    nodesWeight (a ++ b) = nodesWeight a + nodesWeight b := by
  induction a with
  | nil => simp [nodesWeight]
  | cons n rest ih => simp [nodesWeight, ih]; omega

/--
The inner `for (const child of children)` loop of `findMarkdownFile`
(lines 1816-1829): for each child, a failed stat skips it, a directory
child is pushed onto the end of the queue, and a `.md` file (by
lowercased suffix) is appended to the candidate list.
-/
def walkChildren : List FsNode → List FsNode → List String → List FsNode × List String
  | [], queue, acc => (queue, acc)
  | c :: rest, queue, acc =>
    match c.stat with
    | none => walkChildren rest queue acc
    | some st =>
      if st.isDir then walkChildren rest (queue ++ [c]) acc
      else if endsWithStr (lowerStr c.path) ".md" then walkChildren rest queue (acc ++ [c.path])
      else walkChildren rest queue acc

theorem walkChildren_weight (cs : List FsNode) :
    ∀ (queue : List FsNode) (acc : List String),
    nodesWeight (walkChildren cs queue acc).1 ≤ nodesWeight queue + nodesWeight cs := by
  induction cs with
  | nil => intro queue acc; simp [walkChildren, nodesWeight]
  | cons c rest ih =>
    intro queue acc
    cases hst : c.stat with
    | none =>
      simp only [walkChildren, hst]
      have := ih queue acc
      simp only [nodesWeight]
      omega
    | some st =>
      by_cases hdir : st.isDir = true
      · simp only [walkChildren, hst, if_pos hdir]
        have := ih (queue ++ [c]) acc
        rw [nodesWeight_append] at this
        simp only [nodesWeight] at this ⊢
        omega
      · by_cases hmd : endsWithStr (lowerStr c.path) ".md" = true
        · simp only [walkChildren, hst, if_neg hdir, if_pos hmd]
          have := ih queue (acc ++ [c.path])
          simp only [nodesWeight]
          omega
        · simp only [walkChildren, hst, if_neg hdir, if_neg hmd]
          have := ih queue acc
          simp only [nodesWeight]
          omega

/--
The `while (queue.length)` traversal of `findMarkdownFile`
(lines 1808-1831): `queue.pop()` removes the *last* element; its children
are scanned by `walkChildren`, directories re-enqueued at the end, `.md`
file paths accumulated in encounter order.
-/
def walkQueue (queue : List FsNode) (acc : List String) : List String :=
  if h : queue.isEmpty then acc
  else
    have hne : queue ≠ [] := by
      intro hnil
      rw [hnil] at h
      exact h rfl
    let current := queue.getLast hne
    let pa := walkChildren current.children queue.dropLast acc
    walkQueue pa.1 pa.2
termination_by nodesWeight queue
decreasing_by
  have hsplit : queue.dropLast ++ [queue.getLast hne] = queue :=
    List.dropLast_append_getLast hne
  have hbound := walkChildren_weight (queue.getLast hne).children queue.dropLast acc
  have hcur : nodeWeight (queue.getLast hne) = 1 + nodesWeight (queue.getLast hne).children := by
    cases queue.getLast hne with
    | mk p st cs => rfl
  have htot : nodesWeight queue =
      nodesWeight queue.dropLast + nodeWeight (queue.getLast hne) := by
    conv_lhs => rw [← hsplit]
    rw [nodesWeight_append]
    simp [nodesWeight]
  omega

/--
`findMarkdownFile` from `src/src/modules/parse.ts` (lines 1808-1832):
walk the directory tree breadth-last (queue with `pop`), collect every
`.md` file path, and pick one with `selectMarkdown`.  The root is a
synthetic node holding the directory's children; its own path and stat
are never consulted by the walk.
-/
def findMarkdownFile (rootDir : String) (children : List FsNode) : String :=
  selectMarkdown (walkQueue [FsNode.mk rootDir none children] [])

/--
One candidate directory of the cache scan: its entry name
(`PathUtils.filename(entry)`), its stat, the state of its
`cache-info.json` (`none` = absent, `some none` = unreadable JSON,
`some (some m)` = parsed record `m`) and its child nodes (for the
metadata-less fallback).
-/
structure CacheCand where
  name : String
  stat : Option Stat
  metaFile : Option (Option CacheMetadata)
  children : List FsNode

/--
`readCacheMetadata` from `src/src/modules/parse.ts` (lines 1748-1763):
`null` when the file is absent or unparseable or when `data.mdPath` is
falsy (empty).
-/
def readCacheMetadata (c : CacheCand) : Option CacheMetadata :=
  match c.metaFile with
  | none => none
  | some none => none
  | some (some m) => if m.mdPath = "" then none else some m

/--
`inferCachedMarkdown` from `src/src/modules/parse.ts` (lines 1780-1806):
the metadata-less fallback.  Requires the directory name to carry the
`{addonRef}-{itemKey}-` naming convention; when an `*_origin.pdf` child
exists and the lookup knows the attachment size, a present, nonzero and
different stat size rejects the directory (`stat?.size && stat.size !==
info.attachmentSize`); otherwise the recursive `.md` walk decides.
-/
def inferCachedMarkdown (addonRef itemKey : String) (attachmentSize : Option Nat)
    (c : CacheCand) : String :=
  if !(startsWithStr c.name (addonRef ++ "-" ++ itemKey ++ "-")) then ""
  else
    let originPdf := c.children.find? (fun n => endsWithStr (lowerStr n.path) "_origin.pdf")
    let sizeReject :=
      match originPdf, attachmentSize with
      | some n, some size =>
        match n.stat with
        | some st =>
          match st.size with
          | some s => (s != 0) && (s != size)
          | none => false
        | none => false
      | _, _ => false
    if sizeReject then ""
    else findMarkdownFile c.name c.children

/-- The lookup key passed to `findCachedMarkdown` by `parseItem`. -/
structure LookupInfo where
  itemKey : String
  attachmentKey : String
  attachmentSize : Option Nat
  attachmentMtime : Option Nat
  modelVersion : String
deriving Repr, DecidableEq

/--
The body of the `for (const entry of entries)` scan of
`findCachedMarkdown` (lines 1700-1743), threading the
`bestPath`/`bestScore` accumulators (initially `""` and `-1`).
`existingFiles` models `IOUtils.exists` for the `meta.mdPath` check.
-/
def findCachedLoop (addonRef : String) (existingFiles : List String) (info : LookupInfo) :
    List CacheCand → String → Int → String
  | [], bestPath, _ => bestPath
  | c :: rest, bestPath, bestScore =>
    if !(startsWithStr c.name (addonRef ++ "-")) then
      findCachedLoop addonRef existingFiles info rest bestPath bestScore
    else
      match c.stat with
      | none => findCachedLoop addonRef existingFiles info rest bestPath bestScore
      | some st =>
        if !st.isDir then findCachedLoop addonRef existingFiles info rest bestPath bestScore
        else
          match readCacheMetadata c with
          | some m =>
            if (m.itemKey != info.itemKey) || (m.attachmentKey != info.attachmentKey) then
              findCachedLoop addonRef existingFiles info rest bestPath bestScore
            else if !(isSameAttachment ⟨m.attachmentSize, m.attachmentMtime⟩
                ⟨info.attachmentSize, info.attachmentMtime⟩) then
              findCachedLoop addonRef existingFiles info rest bestPath bestScore
            else if (info.modelVersion != "") && (m.modelVersion != some info.modelVersion) then
              findCachedLoop addonRef existingFiles info rest bestPath bestScore
            else if (m.mdPath != "") && existingFiles.contains m.mdPath then
              let score : Int :=
                if m.createdAt ≠ 0 then (m.createdAt : Int)
                else if st.lastModified ≠ 0 then (st.lastModified : Int) else 0
              if score > bestScore then
                findCachedLoop addonRef existingFiles info rest m.mdPath score
              else findCachedLoop addonRef existingFiles info rest bestPath bestScore
            else findCachedLoop addonRef existingFiles info rest bestPath bestScore
          | none =>
            let fallback := inferCachedMarkdown addonRef info.itemKey info.attachmentSize c
            if fallback != "" then
              let score : Int := if st.lastModified ≠ 0 then (st.lastModified : Int) else 0
              if score > bestScore then
                findCachedLoop addonRef existingFiles info rest fallback score
              else findCachedLoop addonRef existingFiles info rest bestPath bestScore
            else findCachedLoop addonRef existingFiles info rest bestPath bestScore

/--
`findCachedMarkdown` from `src/src/modules/parse.ts` (lines 1683-1746)
over an explicit cache-directory listing (`IOUtils.getChildren` of the
cache base dir, as `CacheCand` views) and an explicit set of existing
files; `config.addonRef` is passed explicitly since `package.json` is
not part of the sources.
-/
def findCachedMarkdown (addonRef : String) (existingFiles : List String)
    (info : LookupInfo) (cands : List CacheCand) : String :=
  findCachedLoop addonRef existingFiles info cands "" (-1)

/--
The candidate a single cache directory contributes to the scan of
`findCachedMarkdown`: `some (path, score)` exactly on the branches where
the source loop considers updating `bestPath`/`bestScore`, with the same
path and score expressions (`meta.createdAt || stat.lastModified || 0`
for metadata entries, `stat.lastModified || 0` for fallback entries).
-/
def cacheCandidate (addonRef : String) (existingFiles : List String) (info : LookupInfo)
    (c : CacheCand) : Option (String × Int) :=
  if !(startsWithStr c.name (addonRef ++ "-")) then none
  else
    match c.stat with
    | none => none
    | some st =>
      if !st.isDir then none
      else
        match readCacheMetadata c with
        | some m =>
          if (m.itemKey != info.itemKey) || (m.attachmentKey != info.attachmentKey) then none
          else if !(isSameAttachment ⟨m.attachmentSize, m.attachmentMtime⟩
              ⟨info.attachmentSize, info.attachmentMtime⟩) then none
          else if (info.modelVersion != "") && (m.modelVersion != some info.modelVersion) then none
          else if (m.mdPath != "") && existingFiles.contains m.mdPath then
            some (m.mdPath,
              if m.createdAt ≠ 0 then (m.createdAt : Int)
              else if st.lastModified ≠ 0 then (st.lastModified : Int) else 0)
          else none
        | none =>
          if inferCachedMarkdown addonRef info.itemKey info.attachmentSize c != "" then
            some (inferCachedMarkdown addonRef info.itemKey info.attachmentSize c,
              if st.lastModified ≠ 0 then (st.lastModified : Int) else 0)
          else none

/-- Strict-improvement fold: the `score > bestScore` update of the scan. -/
def pickBest : List (String × Int) → String → Int → String
  | [], best, _ => best
  | pr :: rest, best, bs => if pr.2 > bs then pickBest rest pr.1 pr.2 else pickBest rest best bs

theorem findCachedLoop_eq_pickBest (addonRef : String) (existingFiles : List String)
    (info : LookupInfo) :
    ∀ (cands : List CacheCand) (best : String) (bs : Int),
    findCachedLoop addonRef existingFiles info cands best bs =
      pickBest (cands.filterMap (cacheCandidate addonRef existingFiles info)) best bs := by
  intro cands
  induction cands with
  | nil => intro best bs; rfl
  | cons c rest ih =>
    intro best bs
    by_cases h1 : (!(startsWithStr c.name (addonRef ++ "-"))) = true
    · simp only [findCachedLoop, cacheCandidate, if_pos h1, List.filterMap_cons_none]
      exact ih best bs
    · simp only [findCachedLoop, cacheCandidate, if_neg h1]
      cases hst : c.stat with
      | none => simp only [List.filterMap_cons]; rw [cacheCandidate, if_neg h1, hst]; exact ih best bs
      | some st =>
        by_cases h2 : (!st.isDir) = true
        · simp only [List.filterMap_cons]
          rw [cacheCandidate, if_neg h1, hst]
          simp only [if_pos h2]
          exact ih best bs
        · cases hm : readCacheMetadata c with
          | some m =>
            by_cases h3 : ((m.itemKey != info.itemKey) || (m.attachmentKey != info.attachmentKey)) = true
            · simp only [List.filterMap_cons]
              rw [cacheCandidate, if_neg h1, hst]
              simp only [if_neg h2, hm, if_pos h3]
              exact ih best bs
            · by_cases h4 : (!(isSameAttachment ⟨m.attachmentSize, m.attachmentMtime⟩
                  ⟨info.attachmentSize, info.attachmentMtime⟩)) = true
              · simp only [List.filterMap_cons]
                rw [cacheCandidate, if_neg h1, hst]
                simp only [if_neg h2, hm, if_neg h3, if_pos h4]
                exact ih best bs
              · by_cases h5 : ((info.modelVersion != "") && (m.modelVersion != some info.modelVersion)) = true
                · simp only [List.filterMap_cons]
                  rw [cacheCandidate, if_neg h1, hst]
                  simp only [if_neg h2, hm, if_neg h3, if_neg h4, if_pos h5]
                  exact ih best bs
                · by_cases h6 : ((m.mdPath != "") && existingFiles.contains m.mdPath) = true
                  · simp only [List.filterMap_cons]
                    rw [cacheCandidate, if_neg h1, hst]
                    simp only [if_neg h2, hm, if_neg h3, if_neg h4, if_neg h5, if_pos h6]
                    simp only [pickBest]
                    by_cases h7 : (if m.createdAt ≠ 0 then (m.createdAt : Int)
                        else if st.lastModified ≠ 0 then (st.lastModified : Int) else 0) > bs
                    · simp only [if_pos h7]
                      exact ih _ _
                    · simp only [if_neg h7]
                      exact ih best bs
                  · simp only [List.filterMap_cons]
                    rw [cacheCandidate, if_neg h1, hst]
                    simp only [if_neg h2, hm, if_neg h3, if_neg h4, if_neg h5, if_neg h6]
                    exact ih best bs
          | none =>
            by_cases h8 : (inferCachedMarkdown addonRef info.itemKey info.attachmentSize c != "") = true
            · simp only [List.filterMap_cons]
              rw [cacheCandidate, if_neg h1, hst]
              simp only [if_neg h2, hm, if_pos h8]
              simp only [pickBest]
              by_cases h9 : (if st.lastModified ≠ 0 then (st.lastModified : Int) else 0) > bs
              · simp only [if_pos h9]
                exact ih _ _
              · simp only [if_neg h9]
                exact ih best bs
            · simp only [List.filterMap_cons]
              rw [cacheCandidate, if_neg h1, hst]
              simp only [if_neg h2, hm, if_neg h8]
              exact ih best bs

theorem pickBest_spec :
    ∀ (l : List (String × Int)) (best : String) (bs : Int),
    (pickBest l best bs = best ∧ ∀ q ∈ l, q.2 ≤ bs) ∨
    (∃ pr ∈ l, pickBest l best bs = pr.1 ∧ bs < pr.2 ∧ ∀ q ∈ l, q.2 ≤ pr.2) := by
  intro l
  induction l with
  | nil => intro best bs; left; exact ⟨rfl, by simp⟩
  | cons p rest ih =>
    intro best bs
    by_cases h : p.2 > bs
    · rcases ih p.1 p.2 with ⟨heq, hle⟩ | ⟨pr, hmem, heq, hlt, hle⟩
      · right
        refine ⟨p, List.mem_cons_self p rest, ?_, h, ?_⟩
        · simp only [pickBest, if_pos h]; exact heq
        · intro q hq
          rcases List.mem_cons.mp hq with rfl | hq'
          · exact le_refl _
          · exact hle q hq'
      · right
        refine ⟨pr, List.mem_cons_of_mem p hmem, ?_, lt_trans h hlt, ?_⟩
        · simp only [pickBest, if_pos h]; exact heq
        · intro q hq
          rcases List.mem_cons.mp hq with rfl | hq'
          · exact le_of_lt hlt
          · exact hle q hq'
    · have hple : p.2 ≤ bs := not_lt.mp h
      rcases ih best bs with ⟨heq, hle⟩ | ⟨pr, hmem, heq, hlt, hle⟩
      · left
        refine ⟨by simp only [pickBest, if_neg h]; exact heq, ?_⟩
        intro q hq
        rcases List.mem_cons.mp hq with rfl | hq'
        · exact hple
        · exact hle q hq'
      · right
        refine ⟨pr, List.mem_cons_of_mem p hmem,
          by simp only [pickBest, if_neg h]; exact heq, hlt, ?_⟩
        intro q hq
        rcases List.mem_cons.mp hq with rfl | hq'
        · exact le_trans hple (le_of_lt hlt)
        · exact hle q hq'

theorem scoreChain_nonneg (c1 c2 : Prop) [Decidable c1] [Decidable c2] (n1 n2 : Nat) :
    0 ≤ (if c1 then (n1 : Int) else if c2 then (n2 : Int) else 0) := by
  split
  · exact Int.natCast_nonneg n1
  · split
    · exact Int.natCast_nonneg n2
    · exact le_refl 0

theorem scoreSingle_nonneg (c : Prop) [Decidable c] (n : Nat) :
    0 ≤ (if c then (n : Int) else 0) := by
  split
  · exact Int.natCast_nonneg n
  · exact le_refl 0

theorem cacheCandidate_score_nonneg (addonRef : String) (existingFiles : List String)
    (info : LookupInfo) (c : CacheCand) (pr : String × Int)
    (h : cacheCandidate addonRef existingFiles info c = some pr) : 0 ≤ pr.2 := by
  rw [cacheCandidate] at h
  repeat' split at h
  all_goals try exact Option.noConfusion h
  all_goals obtain rfl := Option.some.inj h
  all_goals first
    | exact scoreChain_nonneg _ _ _ _
    | exact scoreSingle_nonneg _ _
    | exact Int.natCast_nonneg _

/--
**C5.** The cache scan tolerates orphaned entries and prefers the newest
valid match.  First conjunct: a directory whose metadata record points at
a Markdown file that no longer exists (`existingFiles.contains
m.mdPath = false`) is a cache miss that does not abort the scan — the
result is the same as if the directory were absent.  Second conjunct:
the returned path is the path of a scan candidate achieving the maximal
score, where a metadata candidate's score is its creation timestamp
(falling back to the directory's modification timestamp) and a fallback
candidate's score is the directory's modification timestamp.
-/
theorem findCachedMarkdown_policy (addonRef : String) (existingFiles : List String)
    (info : LookupInfo) :
    (∀ (pre post : List CacheCand) (c : CacheCand) (m : CacheMetadata),
      readCacheMetadata c = some m →
      existingFiles.contains m.mdPath = false →
      findCachedMarkdown addonRef existingFiles info (pre ++ c :: post) =
        findCachedMarkdown addonRef existingFiles info (pre ++ post)) ∧
    (∀ cands : List CacheCand,
      cands.filterMap (cacheCandidate addonRef existingFiles info) ≠ [] →
      ∃ pr ∈ cands.filterMap (cacheCandidate addonRef existingFiles info),
        findCachedMarkdown addonRef existingFiles info cands = pr.1 ∧
        ∀ q ∈ cands.filterMap (cacheCandidate addonRef existingFiles info), q.2 ≤ pr.2) := by
  constructor
  · intro pre post c m hm hex
    have hc : cacheCandidate addonRef existingFiles info c = none := by
      rw [cacheCandidate]
      split
      · rfl
      · split
        · rfl
        · split
          · rfl
          · split
            · rename_i m' hm'
              rw [hm] at hm'
              obtain rfl := Option.some.inj hm'
              split
              · rfl
              · split
                · rfl
                · split
                  · rfl
                  · split
                    · rename_i hcond
                      rw [hex] at hcond
                      simp at hcond
                    · rfl
            · rename_i hm'
              rw [hm] at hm'
              exact Option.noConfusion hm'
    rw [findCachedMarkdown, findCachedMarkdown,
      findCachedLoop_eq_pickBest, findCachedLoop_eq_pickBest,
      List.filterMap_append, List.filterMap_append, List.filterMap_cons_none hc]
  · intro cands hne
    rw [findCachedMarkdown, findCachedLoop_eq_pickBest]
    rcases pickBest_spec (cands.filterMap (cacheCandidate addonRef existingFiles info))
        "" (-1) with ⟨_, hle⟩ | ⟨pr, hmem, heq, _, hle⟩
    · exfalso
      obtain ⟨q, hq⟩ := List.exists_mem_of_ne_nil _ hne
      have h1 := hle q hq
      obtain ⟨c, _, hcand⟩ := List.mem_filterMap.mp hq
      have h2 := cacheCandidate_score_nonneg addonRef existingFiles info c q hcand
      omega
    · exact ⟨pr, hmem, heq, hle⟩

def cacheWitnessMeta : CacheMetadata :=
  ⟨"IK", "AK", some 10, some 20, some "pipeline", "/cache/x/full.md", 111, none⟩

def cacheWitnessCand : CacheCand :=
  ⟨"ref-A", some ⟨true, none, 5⟩, some (some cacheWitnessMeta), []⟩

def cacheWitnessInfo : LookupInfo := ⟨"IK", "AK", some 10, some 20, "pipeline"⟩

/--
Witness for `findCachedMarkdown_policy`: a concrete single-entry cache
state whose metadata matches the lookup fingerprint and whose Markdown
file exists.
-/
theorem findCachedMarkdown_policy_witness :
    ∃ pr ∈ ([cacheWitnessCand].filterMap
        (cacheCandidate "ref" ["/cache/x/full.md"] cacheWitnessInfo)),
      findCachedMarkdown "ref" ["/cache/x/full.md"] cacheWitnessInfo [cacheWitnessCand] = pr.1 ∧
      ∀ q ∈ ([cacheWitnessCand].filterMap
          (cacheCandidate "ref" ["/cache/x/full.md"] cacheWitnessInfo)), q.2 ≤ pr.2 :=
  (findCachedMarkdown_policy "ref" ["/cache/x/full.md"] cacheWitnessInfo).2
    [cacheWitnessCand] (by decide)

/-! ### The remote poll loop (`pollBatchResult`) and sub-result selection -/

/-- One element of the remote `extract_result` array. -/
structure ExtractEntry where
  file_name : Option String
  data_id : Option String
  state : String
  err_msg : Option String
  full_zip_url : Option String
  extracted_pages : Option Nat
  total_pages : Option Nat
deriving Repr, DecidableEq

/-- The `find` predicate of `pollBatchResult` (line 1510):
`entry.data_id === dataId || entry.file_name === fileName`. -/
def matchesEntry (dataId fileName : String) (e : ExtractEntry) : Bool :=
  (e.data_id == some dataId) || (e.file_name == some fileName)

/--
Sub-result selection of `pollBatchResult` (lines 1508-1511):
`extract_result.find(e => e.data_id === dataId || e.file_name === fileName)
 || extract_result[0]` — one `find` pass with a disjunctive predicate,
falling back to the first element.
-/
def selectExtractResult (dataId fileName : String) (entries : List ExtractEntry) :
    Option ExtractEntry :=
  match entries.find? (matchesEntry dataId fileName) with
  | some e => some e
  | none => entries.head?

/--
**C7 (counterexample to the claim as stated).** The claim says an entry
matching the correlation id (`data_id`) is preferred over an entry that
matches only by file name.  With `dataId = "X"`, `fileName = "f.pdf"`
and the response list `[{file_name: "f.pdf", data_id: "other"},
{file_name: "g.pdf", data_id: "X"}]`, the code returns the *first*
entry — matching only by file name — not the `data_id` match.
-/
theorem selectExtractResult_preference_cex :
    selectExtractResult "X" "f.pdf"
        [⟨some "f.pdf", some "other", "running", none, none, none, none⟩,
         ⟨some "g.pdf", some "X", "running", none, none, none, none⟩] =
      some ⟨some "f.pdf", some "other", "running", none, none, none, none⟩ ∧
    matchesEntry "X" "f.pdf" ⟨some "g.pdf", some "X", "running", none, none, none, none⟩ = true ∧
    (some "other" : Option String) ≠ some "X" :=
  ⟨rfl, by decide, by decide⟩

/--
**C7 (amended).** The sub-result used by the poll loop is the *first*
entry of `extract_result` whose `data_id` equals the submitted
correlation id *or* whose `file_name` equals the uploaded file name —
the two keys are tested together in one pass, with no preference between
them — and when no entry matches either key the first element of the
list is used.
-/
theorem selectExtractResult_first_match (dataId fileName : String) :
    (∀ (pre post : List ExtractEntry) (e : ExtractEntry),
      (∀ e' ∈ pre, matchesEntry dataId fileName e' = false) →
      matchesEntry dataId fileName e = true →
      selectExtractResult dataId fileName (pre ++ e :: post) = some e) ∧
    (∀ entries : List ExtractEntry,
      (∀ e ∈ entries, matchesEntry dataId fileName e = false) →
      selectExtractResult dataId fileName entries = entries.head?) := by
  constructor
  · intro pre post e hpre he
    have hfind : (pre ++ e :: post).find? (matchesEntry dataId fileName) = some e := by
      induction pre with
      | nil => simp [List.find?_cons, he]
      | cons q rest ih =>
        have hq : matchesEntry dataId fileName q = false := hpre q (List.mem_cons_self q rest)
        have := ih (fun e' he' => hpre e' (List.mem_cons_of_mem q he'))
        simpa [List.find?_cons, hq] using this
    simp [selectExtractResult, hfind]
  · intro entries hall
    have hfind : entries.find? (matchesEntry dataId fileName) = none :=
      List.find?_eq_none.mpr (fun e he => by simp [hall e he])
    simp [selectExtractResult, hfind]

/--
Witness for `selectExtractResult_first_match`: the `data_id` match is
returned when it comes first and nothing before it matches.
-/
theorem selectExtractResult_first_match_witness :
    selectExtractResult "X" "f.pdf"
        [⟨some "a.pdf", some "Y", "running", none, none, none, none⟩,
         ⟨some "g.pdf", some "X", "done", none, none, none, none⟩] =
      some ⟨some "g.pdf", some "X", "done", none, none, none, none⟩ :=
  (selectExtractResult_first_match "X" "f.pdf").1
    [⟨some "a.pdf", some "Y", "running", none, none, none, none⟩] []
    ⟨some "g.pdf", some "X", "done", none, none, none, none⟩
    (by decide) (by decide)

/-- Observable events of the pipeline: status-stage changes, progress
reports, the cancellation checks, and each external operation. -/
inductive PEv where
  | cancelCheck
  | pollRequest
  | sleepEv
  | stage (s : String) (text : String)
  | progressEv (n : Nat)
  | tokenRead
  | slotRequest
  | uploadPut
  | downloadReq
  | cacheWrite
  | noteCreate
deriving Repr, DecidableEq

/-- The fields of one poll response (`MineruBatchResult`) that the loop
reads; `extract_result = none` models an absent `data`/`extract_result`. -/
structure PollResp where
  code : Int
  msg : Option String
  extract_result : Option (List ExtractEntry)
deriving Repr, DecidableEq

/-- One iteration's inputs: the value `shouldCancel?.()` returns at the
top of the iteration and the fetched response. -/
structure PollTick where
  cancelFlag : Bool
  resp : PollResp
deriving Repr, DecidableEq

/-- `40 + Math.round(Math.min(1, Math.max(0, e/t)) * 20)` for `t > 0` —
the fractional running progress (JS `Math.round` rounds half up). -/
def runningPercent (e t : Nat) : Nat :=
  if e ≥ t then 60 else 40 + (40 * e + t) / (2 * t)

/-- `result.err_msg || "未知原因"` (empty string is falsy). -/
def errMsgDefault : Option String → String
  | some s => if s = "" then "未知原因" else s
  | none => "未知原因"

/-- The progress-line events of the `running` state (lines 1526-1547):
fractional progress when page counts are available and the total is
positive, else the fixed mid-point 55. -/
def runningEvs (ep tp : Option Nat) : List PEv :=
  match ep, tp with
  | some e, some t =>
    if t > 0 then
      [PEv.stage "parsing" "status-running-progress", PEv.progressEv (runningPercent e t)]
    else [PEv.stage "parsing" "status-running", PEv.progressEv 55]
  | _, _ => [PEv.stage "parsing" "status-running", PEv.progressEv 55]

/-- The progress-line events of one non-terminal poll response
(lines 1524-1553): `pending` → queued/40, `running` → `runningEvs`,
`converting` → converting/60, anything else → nothing. -/
def progressEvsOf (r : ExtractEntry) : List PEv :=
  if r.state = "pending" then [PEv.stage "parsing" "status-queued", PEv.progressEv 40]
  else if r.state = "running" then runningEvs r.extracted_pages r.total_pages
  else if r.state = "converting" then [PEv.stage "parsing" "status-converting", PEv.progressEv 60]
  else []

/--
`pollBatchResult` from `src/src/modules/parse.ts` (lines 1481-1557) as a
function of the iteration inputs.  Each iteration first checks
cancellation (throwing `已取消`), then issues the GET (one `pollRequest`
event), handles the response — non-zero code, missing sub-result,
`done` (missing url is an error), `failed`, and the progress states of
`progressEvsOf` — and sleeps one poll interval before the next
iteration.  The `Date.now() - start < poll_timeout_ms` loop bound is
modelled by the tick list running out, which produces the timeout error
`任务超时，请稍后重试`.  Status texts are the localization keys; the second
component is the emitted event trace.
-/
def pollLoop (dataId fileName : String) : List PollTick → Except String String × List PEv
  | [] => (Except.error "任务超时，请稍后重试", [])
  | tick :: rest =>
    if tick.cancelFlag then (Except.error "已取消", [PEv.cancelCheck])
    else
      let evs0 := [PEv.cancelCheck, PEv.pollRequest]
      if tick.resp.code != 0 then (Except.error "任务查询失败", evs0)
      else
        match selectExtractResult dataId fileName (tick.resp.extract_result.getD []) with
        | none => (Except.error "任务查询失败: 未找到结果", evs0)
        | some r =>
          if r.state = "done" then
            if r.full_zip_url.getD "" = "" then (Except.error "任务完成但未返回下载链接", evs0)
            else (Except.ok (r.full_zip_url.getD ""), evs0)
          else if r.state = "failed" then
            (Except.error ("解析失败: " ++ errMsgDefault r.err_msg), evs0)
          else
            let next := pollLoop dataId fileName rest
            (next.1, evs0 ++ progressEvsOf r ++ [PEv.sleepEv] ++ next.2)

theorem progressEvsOf_no_ctrl (r : ExtractEntry) :
    PEv.sleepEv ∉ progressEvsOf r ∧ PEv.cancelCheck ∉ progressEvsOf r ∧
      PEv.pollRequest ∉ progressEvsOf r := by
  rw [progressEvsOf]
  split_ifs
  · exact ⟨by simp, by simp, by simp⟩
  · rcases r.extracted_pages with _ | e <;> rcases r.total_pages with _ | t
    · exact ⟨by simp [runningEvs], by simp [runningEvs], by simp [runningEvs]⟩
    · exact ⟨by simp [runningEvs], by simp [runningEvs], by simp [runningEvs]⟩
    · exact ⟨by simp [runningEvs], by simp [runningEvs], by simp [runningEvs]⟩
    · by_cases hp : t > 0
      · exact ⟨by simp [runningEvs, hp], by simp [runningEvs, hp], by simp [runningEvs, hp]⟩
      · exact ⟨by simp [runningEvs, hp], by simp [runningEvs, hp], by simp [runningEvs, hp]⟩
  · exact ⟨by simp, by simp, by simp⟩
  · exact ⟨by simp, by simp, by simp⟩

/--
The shape of a poll-loop event trace: either empty, or a lone
cancellation check, or an iteration `cancelCheck · pollRequest · mid`
that terminates, or such an iteration followed by a `sleepEv` and the
trace of the remaining iterations; `mid` holds only progress events.
-/
inductive IterTrace : List PEv → Prop where
  | nil : IterTrace []
  | cancelled : IterTrace [PEv.cancelCheck]
  | term (mid : List PEv) :
      PEv.sleepEv ∉ mid → PEv.cancelCheck ∉ mid → PEv.pollRequest ∉ mid →
      IterTrace (PEv.cancelCheck :: PEv.pollRequest :: mid)
  | iter (mid tail : List PEv) :
      PEv.sleepEv ∉ mid → PEv.cancelCheck ∉ mid → PEv.pollRequest ∉ mid →
      IterTrace tail →
      IterTrace (PEv.cancelCheck :: PEv.pollRequest :: (mid ++ PEv.sleepEv :: tail))

theorem pollLoop_iterTrace (dataId fileName : String) :
    ∀ ticks : List PollTick, IterTrace (pollLoop dataId fileName ticks).2 := by
  intro ticks
  induction ticks with
  | nil => exact IterTrace.nil
  | cons tick rest ih =>
    rw [pollLoop]
    by_cases hc : tick.cancelFlag = true
    · simp only [if_pos hc]
      exact IterTrace.cancelled
    · simp only [if_neg hc]
      by_cases hcode : (tick.resp.code != 0) = true
      · simp only [if_pos hcode]
        exact IterTrace.term [] (by simp) (by simp) (by simp)
      · simp only [if_neg hcode]
        cases hsel : selectExtractResult dataId fileName (tick.resp.extract_result.getD []) with
        | none => exact IterTrace.term [] (by simp) (by simp) (by simp)
        | some r =>
          by_cases hdone : r.state = "done"
          · simp only [if_pos hdone]
            by_cases hurl : r.full_zip_url.getD "" = ""
            · simp only [if_pos hurl]
              exact IterTrace.term [] (by simp) (by simp) (by simp)
            · simp only [if_neg hurl]
              exact IterTrace.term [] (by simp) (by simp) (by simp)
          · simp only [if_neg hdone]
            by_cases hfail : r.state = "failed"
            · simp only [if_pos hfail]
              exact IterTrace.term [] (by simp) (by simp) (by simp)
            · simp only [if_neg hfail]
              have h := progressEvsOf_no_ctrl r
              have hshape :
                  PEv.cancelCheck :: PEv.pollRequest ::
                      (progressEvsOf r ++ PEv.sleepEv :: (pollLoop dataId fileName rest).2) =
                    [PEv.cancelCheck, PEv.pollRequest] ++ progressEvsOf r ++ [PEv.sleepEv] ++
                      (pollLoop dataId fileName rest).2 := by
                simp
              exact hshape ▸ IterTrace.iter (progressEvsOf r) _ h.1 h.2.1 h.2.2 ih

theorem iterTrace_check_before_sleep {tr : List PEv} (h : IterTrace tr) :
    ∀ pre post, tr = pre ++ PEv.sleepEv :: post →
      List.count PEv.sleepEv pre < List.count PEv.cancelCheck pre := by
  induction h with
  | nil =>
    intro pre post hsplit
    exact absurd hsplit.symm (by simp)
  | cancelled =>
    intro pre post hsplit
    have : PEv.sleepEv ∈ [PEv.cancelCheck] := by
      rw [hsplit]
      exact List.mem_append_right pre (List.mem_cons_self _ _)
    simp at this
  | term mid hs hc hr =>
    intro pre post hsplit
    have : PEv.sleepEv ∈ PEv.cancelCheck :: PEv.pollRequest :: mid := by
      rw [hsplit]
      exact List.mem_append_right pre (List.mem_cons_self _ _)
    rcases List.mem_cons.mp this with h1 | h1
    · exact PEv.noConfusion h1
    · rcases List.mem_cons.mp h1 with h2 | h2
      · exact PEv.noConfusion h2
      · exact absurd h2 hs
  | iter mid tail hs hc hr htail ih =>
    intro pre post hsplit
    rcases pre with _ | ⟨a, pre₁⟩
    · rw [List.nil_append] at hsplit
      injection hsplit with h1 _
      exact PEv.noConfusion h1
    · rw [List.cons_append] at hsplit
      injection hsplit with h1 hsplit
      subst h1
      rcases pre₁ with _ | ⟨b, pre₂⟩
      · rw [List.nil_append] at hsplit
        injection hsplit with h2 _
        exact PEv.noConfusion h2
      · rw [List.cons_append] at hsplit
        injection hsplit with h2 hsplit
        subst h2
        have hcmid : List.count PEv.cancelCheck mid = 0 :=
          List.count_eq_zero.mpr hc
        have hsmid : List.count PEv.sleepEv mid = 0 :=
          List.count_eq_zero.mpr hs
        rcases List.append_eq_append_iff.mp hsplit with ⟨w, hw1, hw2⟩ | ⟨c', hc1, hc2⟩
        · rcases w with _ | ⟨x, w'⟩
          · rw [List.append_nil] at hw1
            subst hw1
            simp [List.count_cons, hcmid, hsmid]
          · rw [List.cons_append] at hw2
            injection hw2 with hx htl
            subst hx
            subst hw1
            have hcount := ih w' post htl
            simp [List.count_cons, List.count_append, hcmid, hsmid]
            omega
        · rcases c' with _ | ⟨y, c''⟩
          · rw [List.append_nil] at hc1
            subst hc1
            simp [List.count_cons, hcmid, hsmid]
          · rw [List.cons_append] at hc2
            injection hc2 with hy _
            have : PEv.sleepEv ∈ mid := by
              rw [hc1, hy]
              exact List.mem_append_right pre₂ (List.mem_cons_self _ _)
            exact absurd this hs

theorem iterTrace_check_before_request {tr : List PEv} (h : IterTrace tr) :
    ∀ pre post, tr = pre ++ PEv.pollRequest :: post →
      List.count PEv.pollRequest pre < List.count PEv.cancelCheck pre := by
  induction h with
  | nil =>
    intro pre post hsplit
    exact absurd hsplit.symm (by simp)
  | cancelled =>
    intro pre post hsplit
    have : PEv.pollRequest ∈ [PEv.cancelCheck] := by
      rw [hsplit]
      exact List.mem_append_right pre (List.mem_cons_self _ _)
    simp at this
  | term mid hs hc hr =>
    intro pre post hsplit
    rcases pre with _ | ⟨a, pre₁⟩
    · rw [List.nil_append] at hsplit
      injection hsplit with h1 _
      exact PEv.noConfusion h1
    · rw [List.cons_append] at hsplit
      injection hsplit with h1 hsplit
      subst h1
      rcases pre₁ with _ | ⟨b, pre₂⟩
      · simp
      · rw [List.cons_append] at hsplit
        injection hsplit with h2 hsplit
        subst h2
        have : PEv.pollRequest ∈ mid := by
          rw [hsplit]
          exact List.mem_append_right pre₂ (List.mem_cons_self _ _)
        exact absurd this hr
  | iter mid tail hs hc hr htail ih =>
    intro pre post hsplit
    rcases pre with _ | ⟨a, pre₁⟩
    · rw [List.nil_append] at hsplit
      injection hsplit with h1 _
      exact PEv.noConfusion h1
    · rw [List.cons_append] at hsplit
      injection hsplit with h1 hsplit
      subst h1
      rcases pre₁ with _ | ⟨b, pre₂⟩
      · simp
      · rw [List.cons_append] at hsplit
        injection hsplit with h2 hsplit
        subst h2
        have hcmid : List.count PEv.cancelCheck mid = 0 :=
          List.count_eq_zero.mpr hc
        have hrmid : List.count PEv.pollRequest mid = 0 :=
          List.count_eq_zero.mpr hr
        rcases List.append_eq_append_iff.mp hsplit with ⟨w, hw1, hw2⟩ | ⟨c', hc1, hc2⟩
        · rcases w with _ | ⟨x, w'⟩
          · rw [List.append_nil] at hw1
            rw [List.nil_append] at hw2
            injection hw2 with hx _
            exact PEv.noConfusion hx
          · rw [List.cons_append] at hw2
            injection hw2 with hx htl
            subst hx
            subst hw1
            have hcount := ih w' post htl
            simp [List.count_cons, List.count_append, hcmid, hrmid]
            omega
        · rcases c' with _ | ⟨y, c''⟩
          · rw [List.append_nil] at hc1
            rw [List.nil_append] at hc2
            injection hc2 with hy _
            exact PEv.noConfusion hy
          · rw [List.cons_append] at hc2
            injection hc2 with hy _
            have : PEv.pollRequest ∈ mid := by
              rw [hc1, hy]
              exact List.mem_append_right pre₂ (List.mem_cons_self _ _)
            exact absurd this hr

/-! ### The per-document pipeline (`parseItem`) -/

/-- The fields of the upload-slot response read by `createUploadUrl`. -/
structure UploadResp where
  code : Int
  batch_id : Option String
  file_urls : List String
deriving Repr, DecidableEq

/--
The environment of one `parseItem` invocation: every external read the
pipeline performs, in the order the source performs them.  `cancel i` is
the value `shouldCancel?.()` returns at the pipeline's `i`-th own
`throwIfCancelled` site (the poll loop's checks are carried by
`pollTicks`; the checks inside `importMarkdownToNote` are abstracted
into `importRemaining`).  `importTexts` are the status texts the import
phase pushes through its progress line (always under the `importing`
stage label fixed by `callbacksToProgressLine(callbacks, "importing")`),
and `importRemaining` is its outcome: the `remainingImages` count or a
thrown error.  HTTP-level failures of `fetchJson` are subsumed into the
response codes (both throw before any further event).
-/
structure ParseEnv where
  md2htmlAvailable : Bool
  itemKey : String
  attachmentKey : String
  filePath : Option String
  fileSize : Option Nat
  fileMtime : Nat
  modelVersion : String
  addonRef : String
  cacheBaseDir : String
  cacheDir : List CacheCand
  existingFiles : List String
  token : String
  cancel : Nat → Bool
  now : Nat
  slotResp : UploadResp
  uploadOk : Bool
  pollTicks : List PollTick
  downloadOk : Bool
  zipEntries : List String
  importTexts : List String
  importRemaining : Except String Nat

/-- `MAX_FILE_SIZE = 200 * 1024 * 1024`. -/
def maxFileSize : Nat := 200 * 1024 * 1024

/-- `Number.isFinite(fileSize) && fileSize > MAX_FILE_SIZE`. -/
def oversize : Option Nat → Bool
  | some n => decide (n > maxFileSize)
  | none => false

/-- `PathUtils.filename(path)` — the last slash-separated component. -/
def jsFilename (p : String) : String :=
  String.mk ((p.toList.splitOn '/').getLastD p.toList)

/-- The events `importMarkdownToNote` emits through
`callbacksToProgressLine(callbacks, "importing")`: each progress text is
reported under the `importing` stage. -/
def importEvents (texts : List String) : List PEv :=
  texts.map (fun t => PEv.stage "importing" t)

/-- `getImportStatusText`: success, or an images-pending notice when
`remainingImages > 0`. -/
def importStatusText (remaining : Nat) : String :=
  if remaining = 0 then "status-success" else "status-images-pending"

/-- The cache-lookup key `parseItem` builds (lines 1070-1076). -/
def parseLookup (env : ParseEnv) : LookupInfo :=
  ⟨env.itemKey, env.attachmentKey, env.fileSize, some env.fileMtime, env.modelVersion⟩

/-- `const cacheHit = !options.force && (await findCachedMarkdown(...))`:
the lookup is skipped entirely under `force`. -/
def cacheHitOf (env : ParseEnv) (force : Bool) : String :=
  if force then ""
  else findCachedMarkdown env.addonRef env.existingFiles (parseLookup env) env.cacheDir

/--
`parseItem` from `src/src/modules/parse.ts` (lines 1039-1181): the
Better-Notes precondition, the PDF-path and size preconditions, the
cache lookup, and then either the cache-hit import path or the full
remote path (token check, slot request, upload, poll, download, extract,
cache write, import).  Status texts are localization keys; the oversize
message omits the rounded MB figure.  The result is paired with the
event trace.
-/
def parseItemRun (env : ParseEnv) (force : Bool) : Except String Unit × List PEv :=
  if !env.md2htmlAvailable then (Except.error "error-better-notes-missing", [])
  else
    match env.filePath with
    | none => (Except.error "error-no-pdf", [])
    | some filePath =>
      if oversize env.fileSize then (Except.error "文件大小超过 200MB", [])
      else
        let fileName := jsFilename filePath
        if env.cancel 0 then (Except.error "已取消", [PEv.cancelCheck])
        else
          let cacheHit := cacheHitOf env force
          if cacheHit ≠ "" then
            let evs1 := [PEv.cancelCheck, PEv.stage "importing" "status-cache-hit",
              PEv.progressEv 40, PEv.stage "importing" "status-importing", PEv.progressEv 70]
            if env.cancel 1 then (Except.error "已取消", evs1 ++ [PEv.cancelCheck])
            else
              let evs2 := evs1 ++ [PEv.cancelCheck, PEv.noteCreate] ++ importEvents env.importTexts
              match env.importRemaining with
              | Except.error e => (Except.error e, evs2)
              | Except.ok remaining =>
                (Except.ok (),
                 evs2 ++ [PEv.stage "done" (importStatusText remaining), PEv.progressEv 100])
          else
            let evs1 := [PEv.cancelCheck, PEv.tokenRead]
            if trimStr env.token = "" then (Except.error "error-no-token", evs1)
            else
              let evs2 := evs1 ++ [PEv.stage "uploading" "status-uploading", PEv.progressEv 10]
              if env.cancel 1 then (Except.error "已取消", evs2 ++ [PEv.cancelCheck])
              else
                let evs3 := evs2 ++ [PEv.cancelCheck, PEv.slotRequest]
                if env.slotResp.code != 0 then (Except.error "申请上传链接失败", evs3)
                else if env.slotResp.file_urls.headD "" = "" ∨ env.slotResp.batch_id.getD "" = "" then
                  (Except.error "申请上传链接失败: 返回数据不完整", evs3)
                else if env.cancel 2 then (Except.error "已取消", evs3 ++ [PEv.cancelCheck])
                else
                  let evs4 := evs3 ++ [PEv.cancelCheck, PEv.uploadPut]
                  if !env.uploadOk then (Except.error "文件上传失败", evs4)
                  else if env.cancel 3 then (Except.error "已取消", evs4 ++ [PEv.cancelCheck])
                  else
                    let evs5 := evs4 ++ [PEv.cancelCheck,
                      PEv.stage "queued" "status-queued", PEv.progressEv 30]
                    let dataId := env.itemKey ++ "-" ++ toString env.now
                    let poll := pollLoop dataId fileName env.pollTicks
                    match poll.1 with
                    | Except.error e => (Except.error e, evs5 ++ poll.2)
                    | Except.ok _ =>
                      if env.cancel 4 then
                        (Except.error "已取消", evs5 ++ poll.2 ++ [PEv.cancelCheck])
                      else
                        let evs6 := evs5 ++ poll.2 ++ [PEv.cancelCheck,
                          PEv.stage "downloading" "status-downloading", PEv.progressEv 70,
                          PEv.downloadReq]
                        if !env.downloadOk then (Except.error "下载失败", evs6)
                        else if env.cancel 5 then (Except.error "已取消", evs6 ++ [PEv.cancelCheck])
                        else
                          let evs7 := evs6 ++ [PEv.cancelCheck]
                          let outputDir := env.cacheBaseDir ++ "/" ++ env.addonRef ++ "-" ++ dataId
                          match (extractMarkdown env.zipEntries outputDir).1 with
                          | Except.error e => (Except.error e, evs7)
                          | Except.ok _ =>
                            let evs8 := evs7 ++ [PEv.cacheWrite,
                              PEv.stage "importing" "status-importing", PEv.progressEv 85]
                            if env.cancel 6 then (Except.error "已取消", evs8 ++ [PEv.cancelCheck])
                            else
                              let evs9 := evs8 ++ [PEv.cancelCheck, PEv.noteCreate] ++
                                importEvents env.importTexts
                              match env.importRemaining with
                              | Except.error e => (Except.error e, evs9)
                              | Except.ok remaining =>
                                (Except.ok (), evs9 ++
                                  [PEv.stage "done" (importStatusText remaining), PEv.progressEv 100])

/-- The stage labels of a trace, in emission order (`onStatusChange`). -/
def stageOf : PEv → Option String
  | PEv.stage s _ => some s
  | _ => none

def stagesOf (evs : List PEv) : List String := evs.filterMap stageOf

theorem stagesOf_append (a b : List PEv) : stagesOf (a ++ b) = stagesOf a ++ stagesOf b :=
  List.filterMap_append a b stageOf

theorem stagesOf_importEvents (texts : List String) :
    stagesOf (importEvents texts) = texts.map (fun _ => "importing") := by
  induction texts with
  | nil => rfl
  | cons t rest ih => simp [stagesOf, importEvents, stageOf] at ih ⊢; exact ih

theorem parseItem_cacheHit_run (env : ParseEnv) (r : Nat)
    (hbn : env.md2htmlAvailable = true)
    (hfp : ∃ fp, env.filePath = some fp)
    (hsz : oversize env.fileSize = false)
    (hcan : ∀ i, env.cancel i = false)
    (hhit : cacheHitOf env false ≠ "")
    (himp : env.importRemaining = Except.ok r) :
    parseItemRun env false =
      (Except.ok (),
        [PEv.cancelCheck, PEv.stage "importing" "status-cache-hit", PEv.progressEv 40,
         PEv.stage "importing" "status-importing", PEv.progressEv 70,
         PEv.cancelCheck, PEv.noteCreate] ++ importEvents env.importTexts ++
        [PEv.stage "done" (importStatusText r), PEv.progressEv 100]) := by
  obtain ⟨fp, hfp⟩ := hfp
  simp [parseItemRun, hbn, hfp, hsz, hcan, hhit, himp]

/--
**C2 (amended).** On the cache-hit path with `force` unset and a
successful import, the stages `parseItem` emits through `onStatusChange`
are `importing` (repeated: twice before the import, once per
import-phase progress text) followed by `done` — there is no
`cache-check` stage anywhere in the code — and no remote operation is
performed: no upload-slot request, no upload, no poll request, no
download.
-/
theorem parseItem_cacheHit_stages (env : ParseEnv) (r : Nat)
    (hbn : env.md2htmlAvailable = true)
    (hfp : ∃ fp, env.filePath = some fp)
    (hsz : oversize env.fileSize = false)
    (hcan : ∀ i, env.cancel i = false)
    (hhit : cacheHitOf env false ≠ "")
    (himp : env.importRemaining = Except.ok r) :
    stagesOf (parseItemRun env false).2 =
      ["importing", "importing"] ++ env.importTexts.map (fun _ => "importing") ++ ["done"] ∧
    (parseItemRun env false).1 = Except.ok () ∧
    PEv.slotRequest ∉ (parseItemRun env false).2 ∧
    PEv.uploadPut ∉ (parseItemRun env false).2 ∧
    PEv.pollRequest ∉ (parseItemRun env false).2 ∧
    PEv.downloadReq ∉ (parseItemRun env false).2 := by
  rw [parseItem_cacheHit_run env r hbn hfp hsz hcan hhit himp]
  refine ⟨?_, rfl, ?_, ?_, ?_, ?_⟩
  · rw [stagesOf_append, stagesOf_append, stagesOf_importEvents]
    simp [stagesOf, stageOf]
  · simp [importEvents]
  · simp [importEvents]
  · simp [importEvents]
  · simp [importEvents]

/-- A concrete environment whose cache lookup hits (`cacheWitnessCand`)
and whose import emits no extra progress texts. -/
def parseEnvHit : ParseEnv :=
  ⟨true, "IK", "AK", some "/pdfs/file.pdf", some 10, 20, "pipeline", "ref", "/tmp",
   [cacheWitnessCand], ["/cache/x/full.md"], "", fun _ => false, 5,
   ⟨0, none, []⟩, true, [], true, [], [], Except.ok 0⟩

/--
**C2 (counterexample to the claim as stated).** On a concrete cache-hit
run the emitted stage sequence is `["importing", "importing", "done"]` —
not `["cache-check", "importing", "done"]` as the claim states: no
`cache-check` stage is ever emitted (the pipeline reports the cache hit
under the `importing` stage label).
-/
theorem parseItem_cacheHit_stages_cex :
    cacheHitOf parseEnvHit false = "/cache/x/full.md" ∧
    stagesOf (parseItemRun parseEnvHit false).2 = ["importing", "importing", "done"] ∧
    stagesOf (parseItemRun parseEnvHit false).2 ≠ ["cache-check", "importing", "done"] ∧
    (parseItemRun parseEnvHit false).1 = Except.ok () :=
  ⟨rfl, rfl, by decide, rfl⟩

/-- Witness for `parseItem_cacheHit_stages` at `parseEnvHit`. -/
theorem parseItem_cacheHit_stages_witness :
    stagesOf (parseItemRun parseEnvHit false).2 =
      ["importing", "importing"] ++ parseEnvHit.importTexts.map (fun _ => "importing") ++
        ["done"] ∧
    (parseItemRun parseEnvHit false).1 = Except.ok () ∧
    PEv.slotRequest ∉ (parseItemRun parseEnvHit false).2 ∧
    PEv.uploadPut ∉ (parseItemRun parseEnvHit false).2 ∧
    PEv.pollRequest ∉ (parseItemRun parseEnvHit false).2 ∧
    PEv.downloadReq ∉ (parseItemRun parseEnvHit false).2 :=
  parseItem_cacheHit_stages parseEnvHit 0 rfl ⟨"/pdfs/file.pdf", rfl⟩ rfl
    (fun _ => rfl) (by decide) rfl

/--
**C10.** The authentication token is never required on the cache-hit
path.  (1) Whenever `force` is unset and the cache lookup hits, the
token preference is never read.  (2) Under the same hit with sound
preconditions and a successful import, the pipeline completes with
`Except.ok` regardless of the token value (it may be empty).  (3) The
missing-token error `error-no-token` is raised exactly when the cache
lookup returned no entry and the trimmed token is empty — i.e. only on
the cache-miss path, immediately after the token read.
-/
theorem parseItem_token_on_hit (env : ParseEnv) :
    (cacheHitOf env false ≠ "" → PEv.tokenRead ∉ (parseItemRun env false).2) ∧
    (∀ r : Nat, env.md2htmlAvailable = true → (∃ fp, env.filePath = some fp) →
      oversize env.fileSize = false → (∀ i, env.cancel i = false) →
      cacheHitOf env false ≠ "" → env.importRemaining = Except.ok r →
      (parseItemRun env false).1 = Except.ok ()) ∧
    (env.md2htmlAvailable = true → (∃ fp, env.filePath = some fp) →
      oversize env.fileSize = false → env.cancel 0 = false →
      cacheHitOf env false = "" → trimStr env.token = "" →
      parseItemRun env false =
        (Except.error "error-no-token", [PEv.cancelCheck, PEv.tokenRead])) := by
  refine ⟨?_, ?_, ?_⟩
  · intro hhit
    rw [parseItemRun]
    by_cases h1 : (!env.md2htmlAvailable) = true
    · simp [h1]
    · simp only [if_neg h1]
      cases hfp : env.filePath with
      | none => simp
      | some fp =>
        by_cases h2 : oversize env.fileSize = true
        · simp [h2]
        · simp only [if_pos, if_neg, h2, Bool.false_eq_true, if_false]
          by_cases h3 : env.cancel 0 = true
          · simp [h3]
          · simp only [if_neg h3, Bool.false_eq_true, if_false]
            simp only [if_pos hhit]
            by_cases h4 : env.cancel 1 = true
            · simp [h4, importEvents]
            · simp only [if_neg h4, Bool.false_eq_true, if_false]
              cases env.importRemaining with
              | error e => simp [importEvents]
              | ok r => simp [importEvents]
  · intro r hbn hfp hsz hcan hhit himp
    rw [parseItem_cacheHit_run env r hbn hfp hsz hcan hhit himp]
  · intro hbn hfp hsz hc0 hmiss htok
    obtain ⟨fp, hfp⟩ := hfp
    simp [parseItemRun, hbn, hfp, hsz, hc0, hmiss, htok]

/-- A concrete environment whose cache lookup misses (empty cache
directory) with an empty token. -/
def parseEnvMiss : ParseEnv :=
  ⟨true, "IK", "AK", some "/pdfs/file.pdf", some 10, 20, "pipeline", "ref", "/tmp",
   [], [], "", fun _ => false, 5,
   ⟨0, none, []⟩, true, [], true, [], [], Except.ok 0⟩

/-- Witness for `parseItem_token_on_hit`: the hit environment never
reads the token and succeeds with an empty token; the miss environment
with an empty token fails with `error-no-token` after the token read. -/
theorem parseItem_token_on_hit_witness :
    PEv.tokenRead ∉ (parseItemRun parseEnvHit false).2 ∧
    (parseItemRun parseEnvHit false).1 = Except.ok () ∧
    parseItemRun parseEnvMiss false =
      (Except.error "error-no-token", [PEv.cancelCheck, PEv.tokenRead]) :=
  ⟨(parseItem_token_on_hit parseEnvHit).1 (by decide),
   (parseItem_token_on_hit parseEnvHit).2.1 0 rfl ⟨"/pdfs/file.pdf", rfl⟩ rfl
     (fun _ => rfl) (by decide) rfl,
   (parseItem_token_on_hit parseEnvMiss).2.2 rfl ⟨"/pdfs/file.pdf", rfl⟩ rfl rfl
     (by decide) rfl⟩

/--
**C6.** Poll-loop cancellation discipline.  (1) In every poll-loop event
trace, strictly more cancellation checks than sleeps precede each sleep
— each iteration checks cancellation before it sleeps.  (2) Strictly
more cancellation checks than poll requests precede each poll request —
cancellation is checked before each poll iteration's GET.
(3) Consequently, when `shouldCancel()` turns true immediately after the
upload completes (the `throwIfCancelled` right after `uploadFile`), the
pipeline throws `已取消` and the trace contains the upload but no poll
request.
-/
theorem poll_cancellation_checks :
    (∀ (dataId fileName : String) (ticks : List PollTick) (pre post : List PEv),
      (pollLoop dataId fileName ticks).2 = pre ++ PEv.sleepEv :: post →
      List.count PEv.sleepEv pre < List.count PEv.cancelCheck pre) ∧
    (∀ (dataId fileName : String) (ticks : List PollTick) (pre post : List PEv),
      (pollLoop dataId fileName ticks).2 = pre ++ PEv.pollRequest :: post →
      List.count PEv.pollRequest pre < List.count PEv.cancelCheck pre) ∧
    (∀ (env : ParseEnv) (force : Bool),
      env.md2htmlAvailable = true → (∃ fp, env.filePath = some fp) →
      oversize env.fileSize = false →
      cacheHitOf env force = "" →
      trimStr env.token ≠ "" →
      env.slotResp.code = 0 →
      env.slotResp.file_urls.head?.getD "" ≠ "" →
      env.slotResp.batch_id.getD "" ≠ "" →
      env.uploadOk = true →
      env.cancel 0 = false → env.cancel 1 = false → env.cancel 2 = false →
      env.cancel 3 = true →
      (parseItemRun env force).1 = Except.error "已取消" ∧
      PEv.pollRequest ∉ (parseItemRun env force).2 ∧
      PEv.uploadPut ∈ (parseItemRun env force).2) := by
  refine ⟨?_, ?_, ?_⟩
  · intro dataId fileName ticks pre post hsplit
    exact iterTrace_check_before_sleep (pollLoop_iterTrace dataId fileName ticks) pre post hsplit
  · intro dataId fileName ticks pre post hsplit
    exact iterTrace_check_before_request (pollLoop_iterTrace dataId fileName ticks) pre post hsplit
  · intro env force hbn hfp hsz hmiss htok hcode hu hb hup hc0 hc1 hc2 hc3
    obtain ⟨fp, hfp⟩ := hfp
    refine ⟨?_, ?_, ?_⟩ <;>
      simp [parseItemRun, hbn, hfp, hsz, hmiss, htok, hcode, hu, hb, hup,
        hc0, hc1, hc2, hc3]

/-- A concrete environment cancelled right after the upload completes. -/
def parseEnvCancelAfterUpload : ParseEnv :=
  ⟨true, "IK", "AK", some "/pdfs/file.pdf", some 10, 20, "pipeline", "ref", "/tmp",
   [], [], "tok", fun i => i == 3, 5,
   ⟨0, some "B", ["http://upload"]⟩, true, [], true, [], [], Except.ok 0⟩

/-- A poll tick whose sub-result is `pending` (one full iteration with a
sleep). -/
def pollTickPending : PollTick :=
  ⟨false, ⟨0, none, some [⟨some "f.pdf", some "X", "pending", none, none, none, none⟩]⟩⟩

/-- Witness for `poll_cancellation_checks` on a concrete one-iteration
trace and the concrete cancelled-after-upload environment. -/
theorem poll_cancellation_checks_witness :
    List.count PEv.sleepEv
        [PEv.cancelCheck, PEv.pollRequest, PEv.stage "parsing" "status-queued",
         PEv.progressEv 40] <
      List.count PEv.cancelCheck
        [PEv.cancelCheck, PEv.pollRequest, PEv.stage "parsing" "status-queued",
         PEv.progressEv 40] ∧
    List.count PEv.pollRequest [PEv.cancelCheck] <
      List.count PEv.cancelCheck [PEv.cancelCheck] ∧
    ((parseItemRun parseEnvCancelAfterUpload false).1 = Except.error "已取消" ∧
     PEv.pollRequest ∉ (parseItemRun parseEnvCancelAfterUpload false).2 ∧
     PEv.uploadPut ∈ (parseItemRun parseEnvCancelAfterUpload false).2) :=
  ⟨poll_cancellation_checks.1 "X" "f.pdf" [pollTickPending]
     [PEv.cancelCheck, PEv.pollRequest, PEv.stage "parsing" "status-queued",
      PEv.progressEv 40] [] (by decide),
   poll_cancellation_checks.2.1 "X" "f.pdf" [pollTickPending]
     [PEv.cancelCheck]
     [PEv.stage "parsing" "status-queued", PEv.progressEv 40, PEv.sleepEv] (by decide),
   poll_cancellation_checks.2.2 parseEnvCancelAfterUpload false rfl
     ⟨"/pdfs/file.pdf", rfl⟩ rfl rfl (by decide) rfl (by decide) (by decide) rfl rfl rfl rfl
     rfl⟩

/-! ### The batch orchestrator (`BatchQueue`, `normalizeConcurrency`) -/

/-- `BatchTaskStatus` from `src/src/modules/batchParse/window.ts`. -/
inductive BStatus where
  | queued
  | running
  | success
  | failed
  | stopped
deriving Repr, DecidableEq

/-- The `BatchTask` fields the queue reads and writes (identification
fields beyond `id` are omitted; `noteID` is an opaque reference). -/
structure BTask where
  id : Nat
  status : BStatus
  statusText : String
  progress : Nat
  startedAt : Option Nat
  endedAt : Option Nat
  durationMs : Option Nat
  noteID : Option Nat
  errorMessage : Option String
  cancelRequested : Bool
deriving Repr, DecidableEq

/--
`normalizeConcurrency` from `src/src/modules/batchParse/window.ts`
(lines 983-987): default 2 when the preference is not a finite number,
otherwise the (already-rounded) value clamped to 1..5.
-/
def normalizeConcurrency : Option Int → Int
  | none => 2
  | some v => max 1 (min 5 v)

/--
The orchestrator state: the shared task array, and `BatchQueue`'s
private `runningCount` / `stopRequested` / `sessionID`.  `inFlight`
records each pending `parseItem` invocation as `(task id, session id at
launch)` — the asynchronous gap between `runTask`'s synchronous head and
its continuation.  `concPref` is the (fixed) concurrency preference and
`now` a logical clock for `Date.now()`.
-/
structure QState where
  tasks : List BTask
  runningCount : Nat
  stopRequested : Bool
  sessionID : Nat
  inFlight : List (Nat × Nat)
  concPref : Option Int
  now : Nat

/-- In-place mutation of one task of the shared array, addressed by id. -/
def updateTask (tasks : List BTask) (id : Nat) (f : BTask → BTask) : List BTask :=
  tasks.map (fun t => if t.id = id then f t else t)

/-- `BatchQueue.retry` (parse.ts lines 1908-1922): only `failed`/`stopped`
tasks go back to `queued`, clearing text, progress, timestamps, error,
note reference and the cancellation flag; anything else returns
unchanged. -/
def retryTask (t : BTask) : BTask :=
  if t.status ≠ BStatus.failed ∧ t.status ≠ BStatus.stopped then t
  else
    { t with
      status := BStatus.queued, statusText := "", progress := 0,
      startedAt := none, endedAt := none, durationMs := none,
      errorMessage := none, noteID := none, cancelRequested := false }

/-- `BatchQueue.stopAll` (lines 1892-1906). -/
def stopAllTasks (s : QState) : QState :=
  { s with
    stopRequested := true
    tasks := s.tasks.map (fun t =>
      if t.status = BStatus.queued then
        { t with status := BStatus.stopped, statusText := "", progress := 0 }
      else if t.status = BStatus.running then
        { t with cancelRequested := true, statusText := "stopping" }
      else t) }

/-- `BatchQueue.stopTask` (lines 1924-1938). -/
def stopTaskOp (s : QState) (id : Nat) : QState :=
  { s with
    tasks := updateTask s.tasks id (fun t =>
      if t.status = BStatus.queued then
        { t with status := BStatus.stopped, statusText := "", progress := 0 }
      else if t.status = BStatus.running then
        { t with cancelRequested := true, statusText := "stopping" }
      else t) }

/-- `BatchQueue.retry` applied through the shared array. -/
def retryOp (s : QState) (id : Nat) : QState :=
  { s with tasks := updateTask s.tasks id retryTask }

/-- `BatchQueue.ensureSession` (lines 1946-1953). -/
def ensureSession (s : QState) : QState :=
  if s.sessionID = 0 ∨ s.stopRequested then
    { s with
      stopRequested := false, sessionID := s.sessionID + 1, runningCount := 0 }
  else s

/--
The synchronous head of `BatchQueue.runTask` (lines 1977-1986), up to
the `await parseItem`: the stale-session guard, the `runningCount`
increment and the task-field mutations; the pending invocation is
recorded in `inFlight`.
-/
def startTaskSync (s : QState) (id : Nat) (sid : Nat) : QState :=
  if sid ≠ s.sessionID then s
  else
    { s with
      runningCount := s.runningCount + 1
      tasks := updateTask s.tasks id (fun t =>
        { t with
          status := BStatus.running, statusText := "running",
          progress := max 1 t.progress, cancelRequested := false,
          startedAt := some s.now, endedAt := none, durationMs := none })
      inFlight := (id, sid) :: s.inFlight
      now := s.now + 1 }

/--
`BatchQueue.pump` (lines 1955-1970): while the session matches, no stop
was requested and `runningCount` is below
`Math.max(1, Math.floor(getConcurrency()))`, pull the first `queued`
task and start it.  The fuel bounds the iterations (each one turns a
`queued` task `running`, so `tasks.length` iterations suffice).
-/
def pumpAux (sid : Nat) : Nat → QState → QState
  | 0, s => s
  | fuel + 1, s =>
    if sid ≠ s.sessionID then s
    else if s.stopRequested then s
    else if s.runningCount ≥ (max 1 (normalizeConcurrency s.concPref)).toNat then s
    else
      match s.tasks.find? (fun t => t.status = BStatus.queued) with
      | none => s
      | some t => pumpAux sid fuel (startTaskSync s t.id sid)

def pump (s : QState) (sid : Nat) : QState := pumpAux sid (s.tasks.length + 1) s

/-- `BatchQueue.start` (lines 1876-1879). -/
def startOp (s : QState) : QState :=
  let s' := ensureSession s
  pump s' s'.sessionID

/-- `BatchQueue.startTask` (lines 1881-1890). -/
def startTaskOp (s : QState) (id : Nat) : QState :=
  match s.tasks.find? (fun t => t.id = id) with
  | none => s
  | some t =>
    if t.status = BStatus.running ∨ t.status = BStatus.success then s
    else
      let s₁ := if t.status = BStatus.failed ∨ t.status = BStatus.stopped then retryOp s id else s
      let s₂ := ensureSession s₁
      pump s₂ s₂.sessionID

/-- `isCancelError` (lines 2059-2066). -/
def isCancelError (msg : String) : Bool :=
  containsStr msg "已取消" || containsStr (lowerStr msg) "canceled" ||
    containsStr (lowerStr msg) "cancelled"

/-- The status mutation of `runTask`'s `try`/`catch` (lines 2017-2032):
success, or cancellation mapped to `stopped`, or failure. -/
def applyOutcome (outcome : Except String Unit) (t : BTask) : BTask :=
  match outcome with
  | Except.ok _ =>
    { t with
      status := BStatus.success, statusText := "success", progress := 100,
      noteID := some 0 }
  | Except.error msg =>
    if isCancelError msg then
      { t with
        errorMessage := some msg, status := BStatus.stopped,
        statusText := "stopped", progress := 0 }
    else
      { t with
        errorMessage := some msg, status := BStatus.failed,
        statusText := "failed", progress := max t.progress 1 }

/--
The continuation of `BatchQueue.runTask` after `parseItem` settles
(lines 1988-2044): the success / failure / cancellation status updates
(performed *regardless* of the session id), then the `finally` block —
only for a still-current session — setting the end timestamps,
decrementing `runningCount` and re-invoking the pump.  A `complete` for
a task with no pending invocation is a no-op.
-/
def completeOp (s : QState) (id : Nat) (outcome : Except String Unit) : QState :=
  match s.inFlight.find? (fun e => e.1 = id) with
  | none => s
  | some e =>
    let s₁ := { s with
      inFlight := s.inFlight.eraseP (fun e' => e'.1 = id)
      tasks := updateTask s.tasks id (applyOutcome outcome) }
    if e.2 = s₁.sessionID then
      let s₂ := { s₁ with
        tasks := updateTask s₁.tasks id (fun t =>
          { t with
            endedAt := some s₁.now,
            durationMs := some (s₁.now - t.startedAt.getD s₁.now) })
        runningCount := s₁.runningCount - 1
        now := s₁.now + 1 }
      pump s₂ e.2
    else s₁

/-- The orchestrator operations of the claims: `start`, `startTask`,
`stopAll`, `stopTask`, `retry`, and the asynchronous completion of a
running task's pipeline. -/
inductive QOp where
  | start
  | startOne (id : Nat)
  | stopAllOp
  | stopOne (id : Nat)
  | retryQ (id : Nat)
  | complete (id : Nat) (outcome : Except String Unit)

def stepOp (s : QState) : QOp → QState
  | QOp.start => startOp s
  | QOp.startOne id => startTaskOp s id
  | QOp.stopAllOp => stopAllTasks s
  | QOp.stopOne id => stopTaskOp s id
  | QOp.retryQ id => retryOp s id
  | QOp.complete id outcome => completeOp s id outcome

def runOps : QState → List QOp → QState
  | s, [] => s
  | s, op :: rest => runOps (stepOp s op) rest

/-- Number of tasks in `running` status. -/
def runningStatusCount (s : QState) : Nat :=
  (s.tasks.filter (fun t => t.status = BStatus.running)).length

/-- The effective concurrency bound of `pump`:
`Math.max(1, Math.floor(getConcurrency()))` with
`getConcurrency() = normalizeConcurrency(pref)`. -/
def effLimit (s : QState) : Nat := (max 1 (normalizeConcurrency s.concPref)).toNat

/-- The pending pipeline invocations launched in the current session. -/
def curInFlight (s : QState) : List (Nat × Nat) :=
  s.inFlight.filter (fun e => e.2 = s.sessionID)

/--
The orchestrator's state invariant: `runningCount` counts exactly the
current session's in-flight invocations; it never exceeds the effective
concurrency limit; in-flight task ids are distinct; every in-flight
invocation belongs to a task in `running` status; task ids are distinct;
and no in-flight invocation carries a future session id.
-/
def QInv (s : QState) : Prop :=
  s.runningCount = (curInFlight s).length ∧
  s.runningCount ≤ effLimit s ∧
  (s.inFlight.map Prod.fst).Nodup ∧
  (∀ e ∈ s.inFlight, ∃ t ∈ s.tasks, t.id = e.1 ∧ t.status = BStatus.running) ∧
  (s.tasks.map BTask.id).Nodup ∧
  (∀ e ∈ s.inFlight, e.2 ≤ s.sessionID)

theorem eraseP_append_of_negs {α : Type} (q : α → Bool) (e : α) (l₂ : List α)
    (he : q e = true) :
    ∀ l₁ : List α, (∀ x ∈ l₁, q x = false) →
    List.eraseP q (l₁ ++ e :: l₂) = l₁ ++ l₂ := by
  intro l₁
  induction l₁ with
  | nil =>
    intro _
    rw [List.nil_append, List.eraseP_cons_of_pos he, List.nil_append]
  | cons a as ih =>
    intro hneg
    have ha : q a = false := hneg a (List.mem_cons_self a as)
    rw [List.cons_append, List.eraseP_cons_of_neg (by simp [ha]),
      ih (fun x hx => hneg x (List.mem_cons_of_mem a hx)), List.cons_append]

theorem updateTask_map_id (tasks : List BTask) (id : Nat) (f : BTask → BTask)
    (hid : ∀ t, (f t).id = t.id) :
    (updateTask tasks id f).map BTask.id = tasks.map BTask.id := by
  induction tasks with
  | nil => rfl
  | cons t rest ih =>
    simp only [updateTask, List.map_cons] at ih ⊢
    by_cases h : t.id = id
    · simp only [if_pos h, hid t, ih]
    · simp only [if_neg h, ih]

theorem tasksMap_map_id (tasks : List BTask) (g : BTask → BTask)
    (hid : ∀ t, (g t).id = t.id) :
    (tasks.map g).map BTask.id = tasks.map BTask.id := by
  induction tasks with
  | nil => rfl
  | cons t rest ih => simp only [List.map_cons, hid t, ih]

theorem witness_preserved_map (tasks : List BTask) (g : BTask → BTask)
    (hid : ∀ t, (g t).id = t.id)
    (hrun : ∀ t, t.status = BStatus.running → (g t).status = BStatus.running)
    (i : Nat) (hw : ∃ t ∈ tasks, t.id = i ∧ t.status = BStatus.running) :
    ∃ t ∈ tasks.map g, t.id = i ∧ t.status = BStatus.running := by
  obtain ⟨t, ht, hti, hts⟩ := hw
  exact ⟨g t, List.mem_map_of_mem g ht, by rw [hid t, hti], hrun t hts⟩

theorem witness_preserved_updateTask_ne (tasks : List BTask) (id : Nat)
    (f : BTask → BTask) (i : Nat) (hne : i ≠ id)
    (hw : ∃ t ∈ tasks, t.id = i ∧ t.status = BStatus.running) :
    ∃ t ∈ updateTask tasks id f, t.id = i ∧ t.status = BStatus.running := by
  obtain ⟨t, ht, hti, hts⟩ := hw
  have h : ¬ (t.id = id) := by rw [hti]; exact hne
  refine ⟨t, ?_, hti, hts⟩
  have himg : (fun t => if t.id = id then f t else t) t = t := by simp [h]
  rw [updateTask]
  exact himg ▸ List.mem_map_of_mem _ ht

theorem witness_updateTask_self (tasks : List BTask) (id : Nat) (f : BTask → BTask)
    (t : BTask) (ht : t ∈ tasks) (hti : t.id = id)
    (hid : (f t).id = t.id) (hst : (f t).status = BStatus.running) :
    ∃ u ∈ updateTask tasks id f, u.id = id ∧ u.status = BStatus.running := by
  refine ⟨f t, ?_, by rw [hid, hti], hst⟩
  rw [updateTask]
  have himg : (fun u => if u.id = id then f u else u) t = f t := by simp [hti]
  exact himg ▸ List.mem_map_of_mem _ ht

theorem updateTask_nodup_id (tasks : List BTask) (id : Nat) (f : BTask → BTask)
    (hid : ∀ t, (f t).id = t.id) (h : (tasks.map BTask.id).Nodup) :
    ((updateTask tasks id f).map BTask.id).Nodup := by
  rw [updateTask_map_id tasks id f hid]
  exact h

theorem startTaskSync_inv (s : QState) (t : BTask)
    (ht : t ∈ s.tasks) (hq : t.status = BStatus.queued)
    (hrc : s.runningCount < effLimit s)
    (h : QInv s) : QInv (startTaskSync s t.id s.sessionID) := by
  obtain ⟨ha, hb, hc, hd, he, hf⟩ := h
  have hfresh : ∀ e ∈ s.inFlight, e.1 ≠ t.id := by
    intro e hein heq
    obtain ⟨t', ht', hti, hts⟩ := hd e hein
    have hids : t' = t := List.inj_on_of_nodup_map he ht' ht (by rw [hti, heq])
    rw [hids, hq] at hts
    exact BStatus.noConfusion hts
  rw [startTaskSync, if_neg (fun hh => hh rfl)]
  refine ⟨?_, ?_, ?_, ?_, ?_, ?_⟩
  · show s.runningCount + 1 =
      (((t.id, s.sessionID) :: s.inFlight).filter (fun e => e.2 = s.sessionID)).length
    rw [List.filter_cons_of_pos (by simp)]
    rw [List.length_cons, ha]
    rfl
  · show s.runningCount + 1 ≤ effLimit s
    omega
  · show ((((t.id, s.sessionID) :: s.inFlight)).map Prod.fst).Nodup
    rw [List.map_cons, List.nodup_cons]
    refine ⟨?_, hc⟩
    intro hmem
    obtain ⟨e, hein, heq⟩ := List.mem_map.mp hmem
    exact hfresh e hein heq
  · intro e he'
    rcases List.mem_cons.mp he' with rfl | hein
    · exact witness_updateTask_self s.tasks t.id _ t ht rfl rfl rfl
    · obtain ⟨t', ht', hti, hts⟩ := hd e hein
      exact witness_preserved_updateTask_ne s.tasks t.id _ e.1
        (fun heq => hfresh e hein heq) ⟨t', ht', hti, hts⟩
  · exact updateTask_nodup_id s.tasks t.id _ (fun u => rfl) he
  · intro e he'
    rcases List.mem_cons.mp he' with rfl | hein
    · exact le_refl _
    · exact hf e hein

theorem tasksMap_nodup_id (tasks : List BTask) (g : BTask → BTask)
    (hid : ∀ t, (g t).id = t.id) (h : (tasks.map BTask.id).Nodup) :
    ((tasks.map g).map BTask.id).Nodup := by
  rw [tasksMap_map_id tasks g hid]
  exact h

theorem witness_preserved_updateTask (tasks : List BTask) (id : Nat) (f : BTask → BTask)
    (hid : ∀ t, (f t).id = t.id)
    (hrun : ∀ t, t.status = BStatus.running → (f t).status = BStatus.running)
    (i : Nat) (hw : ∃ t ∈ tasks, t.id = i ∧ t.status = BStatus.running) :
    ∃ t ∈ updateTask tasks id f, t.id = i ∧ t.status = BStatus.running := by
  refine witness_preserved_map tasks _ ?_ ?_ i hw
  · intro t
    by_cases h : t.id = id
    · simp [h, hid t]
    · simp [h]
  · intro t ht
    by_cases h : t.id = id
    · simp only [if_pos h]
      exact hrun t ht
    · simp only [if_neg h]
      exact ht

theorem pumpAux_inv (sid : Nat) : ∀ (fuel : Nat) (s : QState),
    QInv s → QInv (pumpAux sid fuel s) := by
  intro fuel
  induction fuel with
  | zero => intro s h; exact h
  | succ n ih =>
    intro s h
    rw [pumpAux]
    by_cases h1 : sid ≠ s.sessionID
    · simp only [if_pos h1]; exact h
    · simp only [if_neg h1]
      by_cases h2 : s.stopRequested = true
      · simp only [if_pos h2]; exact h
      · simp only [if_neg h2]
        by_cases h3 : s.runningCount ≥ (max 1 (normalizeConcurrency s.concPref)).toNat
        · simp only [if_pos h3]; exact h
        · simp only [if_neg h3]
          cases hfind : s.tasks.find? (fun t => t.status = BStatus.queued) with
          | none => exact h
          | some t =>
            have hmem := List.mem_of_find?_eq_some hfind
            have hq : t.status = BStatus.queued := by
              have := List.find?_some hfind
              simpa using this
            have hsid : sid = s.sessionID := not_not.mp h1
            have hrc : s.runningCount < effLimit s := Nat.lt_of_not_le h3
            subst hsid
            exact ih _ (startTaskSync_inv s t hmem hq hrc h)

theorem ensureSession_inv (s : QState) (h : QInv s) : QInv (ensureSession s) := by
  obtain ⟨ha, hb, hc, hd, he, hf⟩ := h
  rw [ensureSession]
  split
  · rename_i hcond
    refine ⟨?_, ?_, hc, hd, he, ?_⟩
    · have hnil : s.inFlight.filter (fun e => decide (e.2 = s.sessionID + 1)) = [] := by
        rw [List.filter_eq_nil_iff]
        intro e he'
        have := hf e he'
        simp
        omega
      show 0 = (s.inFlight.filter (fun e => decide (e.2 = s.sessionID + 1))).length
      rw [hnil]
      rfl
    · exact Nat.zero_le _
    · intro e he'
      have := hf e he'
      show e.2 ≤ s.sessionID + 1
      omega
  · exact ⟨ha, hb, hc, hd, he, hf⟩

theorem stopAll_inv (s : QState) (h : QInv s) : QInv (stopAllTasks s) := by
  obtain ⟨ha, hb, hc, hd, he, hf⟩ := h
  refine ⟨ha, hb, hc, ?_, ?_, hf⟩
  · intro e he'
    refine witness_preserved_map s.tasks _ ?_ ?_ e.1 (hd e he')
    · intro t
      by_cases h1 : t.status = BStatus.queued
      · simp [h1]
      · by_cases h2 : t.status = BStatus.running
        · simp [h1, h2]
        · simp [h1, h2]
    · intro t ht
      have h1 : ¬ t.status = BStatus.queued := by
        rw [ht]; intro hh; exact BStatus.noConfusion hh
      simp [h1, ht]
  · refine tasksMap_nodup_id s.tasks _ ?_ he
    intro t
    by_cases h1 : t.status = BStatus.queued
    · simp [h1]
    · by_cases h2 : t.status = BStatus.running
      · simp [h1, h2]
      · simp [h1, h2]

theorem stopTask_inv (s : QState) (id : Nat) (h : QInv s) : QInv (stopTaskOp s id) := by
  obtain ⟨ha, hb, hc, hd, he, hf⟩ := h
  refine ⟨ha, hb, hc, ?_, ?_, hf⟩
  · intro e he'
    refine witness_preserved_updateTask s.tasks id _ ?_ ?_ e.1 (hd e he')
    · intro t
      by_cases h1 : t.status = BStatus.queued
      · simp [h1]
      · by_cases h2 : t.status = BStatus.running
        · simp [h1, h2]
        · simp [h1, h2]
    · intro t ht
      have h1 : ¬ t.status = BStatus.queued := by
        rw [ht]; intro hh; exact BStatus.noConfusion hh
      simp [h1, ht]
  · refine updateTask_nodup_id s.tasks id _ ?_ he
    intro t
    by_cases h1 : t.status = BStatus.queued
    · simp [h1]
    · by_cases h2 : t.status = BStatus.running
      · simp [h1, h2]
      · simp [h1, h2]

theorem retry_inv (s : QState) (id : Nat) (h : QInv s) : QInv (retryOp s id) := by
  obtain ⟨ha, hb, hc, hd, he, hf⟩ := h
  refine ⟨ha, hb, hc, ?_, ?_, hf⟩
  · intro e he'
    refine witness_preserved_updateTask s.tasks id retryTask ?_ ?_ e.1 (hd e he')
    · intro t
      rw [retryTask]
      split
      · rfl
      · rfl
    · intro t ht
      rw [retryTask, if_pos]
      · exact ht
      · rw [ht]
        exact ⟨fun hh => BStatus.noConfusion hh, fun hh => BStatus.noConfusion hh⟩
  · refine updateTask_nodup_id s.tasks id retryTask ?_ he
    intro t
    rw [retryTask]
    split
    · rfl
    · rfl

theorem completeOp_inv (s : QState) (id : Nat) (outcome : Except String Unit)
    (h : QInv s) : QInv (completeOp s id outcome) := by
  obtain ⟨ha, hb, hc, hd, he, hf⟩ := h
  rw [completeOp]
  split
  · exact ⟨ha, hb, hc, hd, he, hf⟩
  · rename_i e hfind
    obtain ⟨hpe, l₁, l₂, hsplit, hneg⟩ := List.find?_eq_some.mp hfind
    have he1 : e.1 = id := by simpa using hpe
    have hneg' : ∀ x ∈ l₁, (fun e' : Nat × Nat => decide (e'.1 = id)) x = false := by
      intro x hx
      have := hneg x hx
      simpa using this
    have herase : s.inFlight.eraseP (fun e' => e'.1 = id) = l₁ ++ l₂ := by
      rw [hsplit]
      exact eraseP_append_of_negs _ e l₂ hpe l₁ hneg'
    have hrem_ne : ∀ x ∈ l₁ ++ l₂, x.1 ≠ id := by
      intro x hx hxid
      have hcnodup : ((l₁ ++ e :: l₂).map Prod.fst).Nodup := by rw [← hsplit]; exact hc
      rw [List.map_append, List.map_cons, List.nodup_append] at hcnodup
      obtain ⟨_, hcons, hdisj⟩ := hcnodup
      rcases List.mem_append.mp hx with hx1 | hx2
      · have hid1 : (id : Nat) ∈ l₁.map Prod.fst := by
          rw [← hxid]; exact List.mem_map_of_mem _ hx1
        have hid2 : (id : Nat) ∈ e.1 :: l₂.map Prod.fst := by
          rw [he1]; exact List.mem_cons_self _ _
        exact hdisj hid1 hid2
      · have hnotmem := (List.nodup_cons.mp hcons).1
        have : (e.1 : Nat) ∈ l₂.map Prod.fst := by
          rw [he1, ← hxid]; exact List.mem_map_of_mem _ hx2
        exact hnotmem this
    have hwitness : ∀ x ∈ l₁ ++ l₂, ∃ t ∈ s.tasks, t.id = x.1 ∧ t.status = BStatus.running := by
      intro x hx
      apply hd
      rw [hsplit]
      rcases List.mem_append.mp hx with hx1 | hx2
      · exact List.mem_append_left _ hx1
      · exact List.mem_append_right _ (List.mem_cons_of_mem _ hx2)
    have hsub : ((l₁ ++ l₂).map Prod.fst).Nodup := by
      have := (List.eraseP_sublist (p := fun e' => decide (e'.1 = id)) s.inFlight).map Prod.fst
      rw [herase] at this
      exact hc.sublist this
    have hfle : ∀ x ∈ l₁ ++ l₂, x.2 ≤ s.sessionID := by
      intro x hx
      apply hf
      rw [hsplit]
      rcases List.mem_append.mp hx with hx1 | hx2
      · exact List.mem_append_left _ hx1
      · exact List.mem_append_right _ (List.mem_cons_of_mem _ hx2)
    have hid1 : ∀ t : BTask, (applyOutcome outcome t).id = t.id := by
      intro t
      cases outcome with
      | ok v => rfl
      | error msg =>
        by_cases hm : isCancelError msg = true
        · simp [applyOutcome, hm]
        · simp [applyOutcome, hm]
    dsimp only
    by_cases hsid : e.2 = s.sessionID
    · rw [if_pos hsid]
      have hlen : s.runningCount =
          (l₁.filter (fun e' => decide (e'.2 = s.sessionID))).length + 1 +
            (l₂.filter (fun e' => decide (e'.2 = s.sessionID))).length := by
        rw [ha, curInFlight, hsplit, List.filter_append,
          List.filter_cons_of_pos (by simpa using hsid), List.length_append, List.length_cons]
        omega
      refine pumpAux_inv e.2 _ _ ⟨?_, ?_, ?_, ?_, ?_, ?_⟩
      · show s.runningCount - 1 =
          ((s.inFlight.eraseP (fun e' => e'.1 = id)).filter
            (fun e' => decide (e'.2 = s.sessionID))).length
        rw [herase, List.filter_append, List.length_append]
        omega
      · show s.runningCount - 1 ≤ effLimit s
        omega
      · show ((s.inFlight.eraseP (fun e' => e'.1 = id)).map Prod.fst).Nodup
        rw [herase]
        exact hsub
      · intro x hx
        rw [herase] at hx
        refine witness_preserved_updateTask_ne _ id _ x.1 (hrem_ne x hx) ?_
        exact witness_preserved_updateTask_ne _ id _ x.1 (hrem_ne x hx) (hwitness x hx)
      · refine updateTask_nodup_id _ id _ (fun t => rfl) ?_
        exact updateTask_nodup_id _ id _ hid1 he
      · intro x hx
        rw [herase] at hx
        exact hfle x hx
    · rw [if_neg hsid]
      refine ⟨?_, ?_, ?_, ?_, ?_, ?_⟩
      · show s.runningCount =
          ((s.inFlight.eraseP (fun e' => e'.1 = id)).filter
            (fun e' => decide (e'.2 = s.sessionID))).length
        rw [herase]
        rw [ha, curInFlight, hsplit, List.filter_append,
          List.filter_cons_of_neg (by simpa using hsid), List.filter_append]
      · exact hb
      · show ((s.inFlight.eraseP (fun e' => e'.1 = id)).map Prod.fst).Nodup
        rw [herase]
        exact hsub
      · intro x hx
        rw [herase] at hx
        exact witness_preserved_updateTask_ne _ id _ x.1 (hrem_ne x hx) (hwitness x hx)
      · exact updateTask_nodup_id _ id _ hid1 he
      · intro x hx
        rw [herase] at hx
        exact hfle x hx

theorem stepOp_inv (s : QState) (op : QOp) (h : QInv s) : QInv (stepOp s op) := by
  cases op with
  | start => exact pumpAux_inv _ _ _ (ensureSession_inv s h)
  | startOne id =>
    show QInv (startTaskOp s id)
    rw [startTaskOp]
    split
    · exact h
    · rename_i t hfind
      by_cases h1 : t.status = BStatus.running ∨ t.status = BStatus.success
      · rw [if_pos h1]; exact h
      · rw [if_neg h1]
        dsimp only
        by_cases h2 : t.status = BStatus.failed ∨ t.status = BStatus.stopped
        · rw [if_pos h2]
          exact pumpAux_inv _ _ _ (ensureSession_inv _ (retry_inv s id h))
        · rw [if_neg h2]
          exact pumpAux_inv _ _ _ (ensureSession_inv _ h)
  | stopAllOp => exact stopAll_inv s h
  | stopOne id => exact stopTask_inv s id h
  | retryQ id => exact retry_inv s id h
  | complete id outcome => exact completeOp_inv s id outcome h

theorem runOps_inv (s : QState) (ops : List QOp) (h : QInv s) : QInv (runOps s ops) := by
  induction ops generalizing s with
  | nil => exact h
  | cons op rest ih => exact ih _ (stepOp_inv s op h)

/--
**C8 (amended).** Session-level concurrency bound.  From any state
satisfying the orchestrator invariant (in particular the fresh all-queued
state), after every sequence of `start` / `startTask` / `stopAll` /
`stopTask` / `retry` operations and pipeline completions, the number of
in-flight pipeline invocations belonging to the *current* session never
exceeds the effective concurrency limit `max 1 (normalizeConcurrency
pref)` (with the preference clamped to 1..5), and each such invocation
is a task in `running` status.  Tasks from a cancelled session (after
`stopAll` and a restart) may additionally remain in `running` status
until their pipelines observe cancellation, which is what the original
claim misses.
-/
theorem BatchQueue_session_concurrency (s₀ : QState) (h₀ : QInv s₀) (ops : List QOp) :
    (curInFlight (runOps s₀ ops)).length ≤ effLimit (runOps s₀ ops) ∧
    (∀ e ∈ curInFlight (runOps s₀ ops), ∃ t ∈ (runOps s₀ ops).tasks,
      t.id = e.1 ∧ t.status = BStatus.running) ∧
    QInv (runOps s₀ ops) := by
  have h := runOps_inv s₀ ops h₀
  refine ⟨?_, ?_, h⟩
  · rw [← h.1]
    exact h.2.1
  · intro e he'
    exact h.2.2.2.1 e (List.mem_filter.mp he').1

/-- A fresh queued task. -/
def mkTask (i : Nat) : BTask := ⟨i, BStatus.queued, "", 0, none, none, none, none, none, false⟩

/-- Four queued tasks, concurrency preference 2, fresh queue. -/
def qInit4 : QState := ⟨[mkTask 0, mkTask 1, mkTask 2, mkTask 3], 0, false, 0, [], some 2, 0⟩

/-- Five queued tasks, concurrency preference 2, fresh queue. -/
def qInit5 : QState :=
  ⟨[mkTask 0, mkTask 1, mkTask 2, mkTask 3, mkTask 4], 0, false, 0, [], some 2, 0⟩

/--
**C8 (counterexample to the claim as stated).** With concurrency 2 and
four queued tasks, the operation sequence `start; stopAll; retry 2;
retry 3; start` — all operations from the claim's list — leaves *four*
tasks simultaneously in `running` status: `stopAll` only requests
cancellation of the two running tasks, and the restarted session's pump
starts two more while they are still running.
-/
theorem BatchQueue_concurrency_cex :
    normalizeConcurrency qInit4.concPref = 2 ∧
    runningStatusCount (runOps qInit4
      [QOp.start, QOp.stopAllOp, QOp.retryQ 2, QOp.retryQ 3, QOp.start]) = 4 ∧
    ¬ (runningStatusCount (runOps qInit4
      [QOp.start, QOp.stopAllOp, QOp.retryQ 2, QOp.retryQ 3, QOp.start]) ≤ 2) :=
  ⟨rfl, by decide, by decide⟩

/-- Witness for `BatchQueue_session_concurrency` on the fresh five-task
state with concurrency 2 after one `start`. -/
theorem BatchQueue_session_concurrency_witness :
    (curInFlight (runOps qInit5 [QOp.start])).length ≤ effLimit (runOps qInit5 [QOp.start]) ∧
    (∀ e ∈ curInFlight (runOps qInit5 [QOp.start]), ∃ t ∈ (runOps qInit5 [QOp.start]).tasks,
      t.id = e.1 ∧ t.status = BStatus.running) ∧
    QInv (runOps qInit5 [QOp.start]) :=
  BatchQueue_session_concurrency qInit5
    ⟨rfl, by decide, by decide, fun e he => absurd he (List.not_mem_nil e),
     by decide, fun e he => absurd he (List.not_mem_nil e)⟩ [QOp.start]

/--
**C9.** `BatchQueue.retry` transitions a task back to `queued` —
clearing progress, status text, error text, timestamps, note reference
and the cancellation flag — exactly when its status is `failed` or
`stopped`; on any other status (in particular `success`) it is a no-op
leaving every field unchanged.
-/
theorem BatchQueue_retry_spec (t : BTask) :
    ((t.status = BStatus.failed ∨ t.status = BStatus.stopped) →
      retryTask t =
        { t with
          status := BStatus.queued, statusText := "", progress := 0,
          startedAt := none, endedAt := none, durationMs := none,
          errorMessage := none, noteID := none, cancelRequested := false }) ∧
    (t.status ≠ BStatus.failed ∧ t.status ≠ BStatus.stopped → retryTask t = t) ∧
    (t.status = BStatus.success → retryTask t = t) := by
  refine ⟨?_, ?_, ?_⟩
  · intro hst
    rw [retryTask, if_neg]
    intro hcon
    rcases hst with hfail | hstop
    · exact hcon.1 hfail
    · exact hcon.2 hstop
  · intro hne
    rw [retryTask, if_pos hne]
  · intro hs
    rw [retryTask, if_pos]
    constructor
    · rw [hs]; intro hh; exact BStatus.noConfusion hh
    · rw [hs]; intro hh; exact BStatus.noConfusion hh

/-- Witness for `BatchQueue_retry_spec`: a `success` task is untouched
and a `failed` task is fully reset to `queued`. -/
theorem BatchQueue_retry_spec_witness :
    retryTask ⟨7, BStatus.success, "success", 100, some 1, some 2, some 1, some 3, none, false⟩ =
      ⟨7, BStatus.success, "success", 100, some 1, some 2, some 1, some 3, none, false⟩ ∧
    retryTask ⟨8, BStatus.failed, "failed", 50, some 1, some 2, some 1, none, some "boom", true⟩ =
      ⟨8, BStatus.queued, "", 0, none, none, none, none, none, false⟩ :=
  ⟨(BatchQueue_retry_spec _).2.2 rfl,
   (BatchQueue_retry_spec
     ⟨8, BStatus.failed, "failed", 50, some 1, some 2, some 1, none, some "boom", true⟩).1
     (Or.inl rfl)⟩
